import Mathlib

/-!
Verification of the `gitignore` pattern-matching library.

The Go source is shallowly embedded below.  Strings are modelled as lists
of bytes (`List Nat`, each element a byte value), matching the byte-wise
semantics of the original code.  The index-based `for` loops of the source
are modelled as fuel-indexed structural recursions; every loop strictly
advances its index, so a fuel of `length + 2` can never be exhausted, and
the loops of `matchSegments` / `matchSegment` get an explicit fuel bound
that is proved sufficient (claim C10).
-/

set_option maxHeartbeats 1000000

namespace Gitignore

/-- Byte list of an ASCII string literal (used to build concrete inputs). -/
def gs (s : String) : List Nat := s.data.map Char.toNat

/-! ### Small list helpers -/

theorem drop_eq_cons_of_get? {α : Type} :
    ∀ (l : List α) (n : Nat) (a : α), l.get? n = some a → l.drop n = a :: l.drop (n + 1)
  | x :: xs, 0, a, h => by
    rw [List.get?_cons_zero] at h
    cases h
    rfl
  | x :: xs, n + 1, a, h => by
    rw [List.get?_cons_succ] at h
    have := drop_eq_cons_of_get? xs n a h
    simpa using this

theorem take_drop_comm {α : Type} :
    ∀ (l : List α) (n k : Nat), (l.take n).drop k = (l.drop k).take (n - k) := by
  intro l
  induction l with
  | nil => intro n k; simp
  | cons x xs ih =>
    intro n k
    cases n with
    | zero => simp
    | succ m =>
      cases k with
      | zero => simp
      | succ j => simpa using ih m j

theorem drop_add {α : Type} (l : List α) (n k : Nat) :
    (l.drop n).drop k = l.drop (n + k) := by
  rw [List.drop_drop, Nat.add_comm]

theorem drop_of_ge_length {α : Type} :
    ∀ (l : List α) (n : Nat), l.length ≤ n → l.drop n = [] := by
  intro l n h
  exact List.drop_eq_nil_of_le h

/-! ### Byte constants

Names follow the ASCII characters used by the Go source:
`bBSL = '\\'`, `bSTAR = '*'`, `bQM = '?'`, `bLBR = '['`, `bRBR = ']'`,
`bBANG = '!'`, `bCARET = '^'`, `bDASH = '-'`, `bCOLON = ':'`,
`bSLASH = '/'`, `bSP = ' '`, `bHASH = '#'`, `bNL = '\n'`, `bCR = '\r'`. -/

def bBSL : Nat := 92
def bSTAR : Nat := 42
def bQM : Nat := 63
def bLBR : Nat := 91
def bRBR : Nat := 93
def bBANG : Nat := 33
def bCARET : Nat := 94
def bDASH : Nat := 45
def bCOLON : Nat := 58
def bSLASH : Nat := 47
def bSP : Nat := 32
def bHASH : Nat := 35
def bNL : Nat := 10
def bCR : Nat := 13

/-! ### wildmatch.go : POSIX classes -/

/-- Port of `matchPosixClass` (wildmatch.go): byte-level ASCII class tests. -/
def matchPosixClass (name : List Nat) (ch : Nat) : Bool :=
  if name = gs "alnum" then
    (97 ≤ ch ∧ ch ≤ 122) ∨ (65 ≤ ch ∧ ch ≤ 90) ∨ (48 ≤ ch ∧ ch ≤ 57)
  else if name = gs "alpha" then
    (97 ≤ ch ∧ ch ≤ 122) ∨ (65 ≤ ch ∧ ch ≤ 90)
  else if name = gs "blank" then
    ch = 32 ∨ ch = 9
  else if name = gs "cntrl" then
    ch < 0x20 ∨ ch = 0x7f
  else if name = gs "digit" then
    48 ≤ ch ∧ ch ≤ 57
  else if name = gs "graph" then
    0x20 < ch ∧ ch < 0x7f
  else if name = gs "lower" then
    97 ≤ ch ∧ ch ≤ 122
  else if name = gs "print" then
    0x20 ≤ ch ∧ ch < 0x7f
  else if name = gs "punct" then
    0x20 < ch ∧ ch < 0x7f ∧ (ch < 97 ∨ 122 < ch) ∧ (ch < 65 ∨ 90 < ch) ∧ (ch < 48 ∨ 57 < ch)
  else if name = gs "space" then
    ch = 32 ∨ ch = 9 ∨ ch = 10 ∨ ch = 13 ∨ ch = 12 ∨ ch = 11
  else if name = gs "upper" then
    65 ≤ ch ∧ ch ≤ 90
  else if name = gs "xdigit" then
    (48 ≤ ch ∧ ch ≤ 57) ∨ (97 ≤ ch ∧ ch ≤ 102) ∨ (65 ≤ ch ∧ ch ≤ 70)
  else false

/-- Port of `findPosixClassEnd` (wildmatch.go): position of `':'` in `":]"` at
or after `i`.  The `for` loop is modelled with fuel; each iteration advances
`i` by one, so `glob.length + 1` fuel is never exhausted. -/
def findPosixClassEndF (glob : List Nat) : Nat → Nat → Option Nat
  | 0, _ => none
  | fuel + 1, i =>
    if i + 1 < glob.length then
      if glob.getD i 0 = bCOLON ∧ glob.getD (i + 1) 0 = bRBR then some i
      else findPosixClassEndF glob fuel (i + 1)
    else none

def findPosixClassEnd (glob : List Nat) (startPos : Nat) : Option Nat :=
  findPosixClassEndF glob (glob.length + 1) startPos

theorem findPosixClassEndF_some {glob : List Nat} :
    ∀ {fuel i e : Nat}, findPosixClassEndF glob fuel i = some e →
      i ≤ e ∧ e + 1 < glob.length := by
  intro fuel
  induction fuel with
  | zero => intro i e h; simp [findPosixClassEndF] at h
  | succ f ih =>
    intro i e h
    unfold findPosixClassEndF at h
    split at h
    · split at h
      · cases h; exact ⟨Nat.le_refl _, by assumption⟩
      · have := ih h
        exact ⟨Nat.le_trans (Nat.le_succ i) this.1, this.2⟩
    · cases h

theorem findPosixClassEnd_some {glob : List Nat} {p e : Nat}
    (h : findPosixClassEnd glob p = some e) : p ≤ e ∧ e + 1 < glob.length :=
  findPosixClassEndF_some h

/-! ### wildmatch.go : bracket expressions -/

/-- Range/plain continuation of a bracket member (part of the loop body of
`matchBracket`): given the resolved member byte `lo` and position `i₁` just
past it, checks for a range `-hi` (honoring `\\Y`) and returns whether `ch`
matched together with the next scan position. -/
def bracketMemberAt (glob : List Nat) (ch lo i₁ : Nat) : Bool × Nat :=
  if i₁ + 1 < glob.length ∧ glob.getD i₁ 0 = bDASH ∧ ¬ glob.getD (i₁ + 1) 0 = bRBR then
    if glob.getD (i₁ + 1) 0 = bBSL ∧ i₁ + 2 < glob.length then
      (decide (lo ≤ ch ∧ ch ≤ glob.getD (i₁ + 2) 0), i₁ + 3)
    else
      (decide (lo ≤ ch ∧ ch ≤ glob.getD (i₁ + 1) 0), i₁ + 2)
  else (decide (ch = lo), i₁)

/-- One member item of a bracket expression (port of the member-reading part
of the loop body of `matchBracket`): reads `lo` (honoring `\\X`), then the
optional range. -/
def bracketMember (glob : List Nat) (ch : Nat) (i : Nat) : Bool × Nat :=
  if glob.getD i 0 = bBSL ∧ i + 1 < glob.length then
    bracketMemberAt glob ch (glob.getD (i + 1) 0) (i + 2)
  else
    bracketMemberAt glob ch (glob.getD i 0) (i + 1)

theorem bracketMemberAt_snd_ge (glob : List Nat) (ch lo i₁ : Nat) :
    i₁ ≤ (bracketMemberAt glob ch lo i₁).2 := by
  unfold bracketMemberAt
  split
  · split <;> simp
  · simp

theorem bracketMemberAt_snd_indep (glob : List Nat) (ch ch' lo lo' i₁ : Nat) :
    (bracketMemberAt glob ch lo i₁).2 = (bracketMemberAt glob ch' lo' i₁).2 := by
  unfold bracketMemberAt
  split
  · split <;> rfl
  · rfl

theorem bracketMember_snd_gt (glob : List Nat) (ch i : Nat) :
    i < (bracketMember glob ch i).2 := by
  unfold bracketMember
  split
  · have := bracketMemberAt_snd_ge glob ch (glob.getD (i + 1) 0) (i + 2); omega
  · have := bracketMemberAt_snd_ge glob ch (glob.getD i 0) (i + 1); omega

theorem bracketMember_snd_indep (glob : List Nat) (ch ch' i : Nat) :
    (bracketMember glob ch i).2 = (bracketMember glob ch' i).2 := by
  unfold bracketMember
  split
  · exact bracketMemberAt_snd_indep ..
  · exact bracketMemberAt_snd_indep ..

/-- The scan loop of `matchBracket` (wildmatch.go).  State: `negate`,
`matched`, `first` flags and scan position `i`; returns
`(matched, posAfterBracket, valid)`.  Fuel-modelled: every iteration
advances `i`, so `glob.length + 2` fuel is never exhausted. -/
def bracketLoop (glob : List Nat) (ch : Nat) :
    Nat → Bool → Bool → Bool → Nat → Bool × Nat × Bool
  | 0, _, _, _, _ => (false, 0, false)
  | fuel + 1, negate, matched, first, i =>
    if i < glob.length then
      if glob.getD i 0 = bRBR ∧ first = false then
        (if negate then !matched else matched, i + 1, true)
      else if glob.getD i 0 = bLBR ∧ i + 1 < glob.length ∧ glob.getD (i + 1) 0 = bCOLON then
        match findPosixClassEnd glob (i + 2) with
        | some e =>
          bracketLoop glob ch fuel negate
            (matched || matchPosixClass ((glob.drop (i + 2)).take (e - (i + 2))) ch) false (e + 2)
        | none =>
          bracketLoop glob ch fuel negate (matched || (bracketMember glob ch i).1) false
            (bracketMember glob ch i).2
      else
        bracketLoop glob ch fuel negate (matched || (bracketMember glob ch i).1) false
          (bracketMember glob ch i).2
    else (false, 0, false)

/-- Port of `matchBracket` (wildmatch.go): evaluate the bracket expression
starting at `glob[pos]` (the `'['`) against byte `ch`. -/
def matchBracket (glob : List Nat) (pos : Nat) (ch : Nat) : Bool × Nat × Bool :=
  if glob.length ≤ pos + 1 then (false, 0, false)
  else if glob.getD (pos + 1) 0 = bBANG ∨ glob.getD (pos + 1) 0 = bCARET then
    bracketLoop glob ch (glob.length + 2) true false true (pos + 2)
  else
    bracketLoop glob ch (glob.length + 2) false false true (pos + 1)

theorem bracketLoop_snd_indep (glob : List Nat) :
    ∀ (fuel : Nat) (ch ch' : Nat) (negate negate' matched matched' first : Bool) (i : Nat),
      (bracketLoop glob ch fuel negate matched first i).2 =
      (bracketLoop glob ch' fuel negate' matched' first i).2 := by
  intro fuel
  induction fuel with
  | zero => intro ch ch' n n' m m' f i; simp [bracketLoop]
  | succ fuel ih =>
    intro ch ch' n n' m m' f i
    unfold bracketLoop
    by_cases hi : i < glob.length
    · rw [if_pos hi, if_pos hi]
      by_cases hr : glob.getD i 0 = bRBR ∧ f = false
      · rw [if_pos hr, if_pos hr]
      · rw [if_neg hr, if_neg hr]
        by_cases hp : glob.getD i 0 = bLBR ∧ i + 1 < glob.length ∧ glob.getD (i + 1) 0 = bCOLON
        · rw [if_pos hp, if_pos hp]
          cases hE : findPosixClassEnd glob (i + 2) with
          | some e => exact ih ..
          | none => rw [bracketMember_snd_indep glob ch ch' i]; exact ih ..
        · rw [if_neg hp, if_neg hp]
          rw [bracketMember_snd_indep glob ch ch' i]
          exact ih ..
    · rw [if_neg hi, if_neg hi]

theorem matchBracket_snd_indep (glob : List Nat) (pos ch ch' : Nat) :
    (matchBracket glob pos ch).2 = (matchBracket glob pos ch').2 := by
  unfold matchBracket
  split
  · rfl
  · split
    · exact bracketLoop_snd_indep ..
    · exact bracketLoop_snd_indep ..

theorem bracketLoop_ok_bounds (glob : List Nat) :
    ∀ (fuel : Nat) (ch : Nat) (negate matched first : Bool) (i : Nat),
      (bracketLoop glob ch fuel negate matched first i).2.2 = true →
      i < (bracketLoop glob ch fuel negate matched first i).2.1 ∧
      (bracketLoop glob ch fuel negate matched first i).2.1 ≤ glob.length := by
  intro fuel
  induction fuel with
  | zero => intro ch n m f i h; simp [bracketLoop] at h
  | succ fuel ih =>
    intro ch n m f i h
    unfold bracketLoop at h ⊢
    by_cases hi : i < glob.length
    · rw [if_pos hi] at h ⊢
      by_cases hr : glob.getD i 0 = bRBR ∧ f = false
      · rw [if_pos hr] at h ⊢
        simp only []
        omega
      · rw [if_neg hr] at h ⊢
        by_cases hp : glob.getD i 0 = bLBR ∧ i + 1 < glob.length ∧ glob.getD (i + 1) 0 = bCOLON
        · rw [if_pos hp] at h ⊢
          cases hE : findPosixClassEnd glob (i + 2) with
          | some e =>
            rw [hE] at h
            dsimp only at h ⊢
            have hb := findPosixClassEnd_some hE
            have := ih ch n (m || matchPosixClass ((glob.drop (i + 2)).take (e - (i + 2))) ch)
              false (e + 2) h
            exact ⟨by omega, this.2⟩
          | none =>
            rw [hE] at h
            dsimp only at h ⊢
            have hgt := bracketMember_snd_gt glob ch i
            have := ih ch n (m || (bracketMember glob ch i).1) false (bracketMember glob ch i).2 h
            exact ⟨by omega, this.2⟩
        · rw [if_neg hp] at h ⊢
          have hgt := bracketMember_snd_gt glob ch i
          have := ih ch n (m || (bracketMember glob ch i).1) false (bracketMember glob ch i).2 h
          exact ⟨by omega, this.2⟩
    · rw [if_neg hi] at h
      simp at h

theorem matchBracket_ok_bounds (glob : List Nat) (pos ch : Nat)
    (h : (matchBracket glob pos ch).2.2 = true) :
    pos < (matchBracket glob pos ch).2.1 ∧ (matchBracket glob pos ch).2.1 ≤ glob.length := by
  unfold matchBracket at h ⊢
  split at h
  · simp at h
  · rw [if_neg (by assumption)]
    split at h
    · rw [if_pos (by assumption)]
      have hb := bracketLoop_ok_bounds glob (glob.length + 2) ch true false true (pos + 2) h
      exact ⟨by omega, hb.2⟩
    · rw [if_neg (by assumption)]
      have hb := bracketLoop_ok_bounds glob (glob.length + 2) ch false false true (pos + 1) h
      exact ⟨by omega, hb.2⟩

/-! ### wildmatch.go : character-level matcher -/

/-- The trailing-`'*'` skipping loop at the end of `matchSegment`
(wildmatch.go): advances `gx` past consecutive `'*'` bytes.  Fuel-modelled;
`glob.length + 1` fuel is never exhausted. -/
def skipStarsF (glob : List Nat) : Nat → Nat → Nat
  | 0, gx => gx
  | fuel + 1, gx =>
    if gx < glob.length ∧ glob.getD gx 0 = bSTAR then skipStarsF glob fuel (gx + 1) else gx

def skipStars (glob : List Nat) (gx : Nat) : Nat :=
  skipStarsF glob (glob.length + 1) gx

/-- The main loop of `matchSegment` (wildmatch.go): two-pointer backtracking
over bytes.  State: glob index `gx`, text index `tx`, and the saved backtrack
point `star = some (starGx, starTx)` (the Go code's `starGx, starTx = -1, -1`
is `none`).  `none` is returned when the fuel runs out; `csFuel` below is a
proved-sufficient bound (claim C10). -/
def csLoop (glob text : List Nat) : Nat → Nat → Option (Nat × Nat) → Nat → Option Bool
  | _, _, _, 0 => none
  | gx, tx, star, fuel + 1 =>
    if tx < text.length then
      if gx < glob.length then
        if glob.getD gx 0 = bBSL ∧ gx + 1 < glob.length then
          if text.getD tx 0 = glob.getD (gx + 1) 0 then
            csLoop glob text (gx + 2) (tx + 1) star fuel
          else
            match star with
            | some (sg, st) => csLoop glob text (sg + 1) (st + 1) (some (sg, st + 1)) fuel
            | none => some false
        else if glob.getD gx 0 = bQM then csLoop glob text (gx + 1) (tx + 1) star fuel
        else if glob.getD gx 0 = bSTAR then csLoop glob text (gx + 1) tx (some (gx, tx)) fuel
        else if glob.getD gx 0 = bLBR then
          if (matchBracket glob gx (text.getD tx 0)).2.2 ∧
             (matchBracket glob gx (text.getD tx 0)).1 then
            csLoop glob text (matchBracket glob gx (text.getD tx 0)).2.1 (tx + 1) star fuel
          else if ¬ (matchBracket glob gx (text.getD tx 0)).2.2 ∧ text.getD tx 0 = bLBR then
            csLoop glob text (gx + 1) (tx + 1) star fuel
          else
            match star with
            | some (sg, st) => csLoop glob text (sg + 1) (st + 1) (some (sg, st + 1)) fuel
            | none => some false
        else if text.getD tx 0 = glob.getD gx 0 then csLoop glob text (gx + 1) (tx + 1) star fuel
        else
          match star with
          | some (sg, st) => csLoop glob text (sg + 1) (st + 1) (some (sg, st + 1)) fuel
          | none => some false
      else
        match star with
        | some (sg, st) => csLoop glob text (sg + 1) (st + 1) (some (sg, st + 1)) fuel
        | none => some false
    else
      some (decide (skipStars glob gx = glob.length))

/-- Fuel bound for `csLoop`, proved sufficient in `csLoop_main`. -/
def csFuel (glob text : List Nat) : Nat :=
  (text.length + 2) * ((text.length + 1) * (glob.length + 1))

/-- Port of `matchSegment` (wildmatch.go): match a single path component
against a glob pattern segment. -/
def matchSegment (glob text : List Nat) : Bool :=
  (csLoop glob text 0 0 none (csFuel glob text)).getD false

/-! ### wildmatch.go : segment-level matcher -/

/-- Port of the `segment` struct (part_001): one `/`-delimited piece of a
compiled pattern; `raw` is empty when `doubleStar` is set. -/
structure Seg where
  doubleStar : Bool
  raw : List Nat
deriving DecidableEq

/-- The loop of `matchSegments` (wildmatch.go): two-pointer backtracking over
whole path segments, `doubleStar` playing the role of `'*'`. -/
def msLoop (pats : List Seg) (path : List (List Nat)) :
    Nat → Nat → Option (Nat × Nat) → Nat → Option Bool
  | _, _, _, 0 => none
  | px, tx, star, fuel + 1 =>
    if tx < path.length then
      match pats.get? px with
      | some sg =>
        if sg.doubleStar then msLoop pats path (px + 1) tx (some (px, tx)) fuel
        else if matchSegment sg.raw (path.getD tx []) then
          msLoop pats path (px + 1) (tx + 1) star fuel
        else
          match star with
          | some (sp, st) => msLoop pats path (sp + 1) (st + 1) (some (sp, st + 1)) fuel
          | none => some false
      | none =>
        match star with
        | some (sp, st) => msLoop pats path (sp + 1) (st + 1) (some (sp, st + 1)) fuel
        | none => some false
    else
      some ((pats.drop px).all (·.doubleStar))

/-- Fuel bound for `msLoop`, proved sufficient in `msLoop_main`. -/
def msFuel (pats : List Seg) (path : List (List Nat)) : Nat :=
  (path.length + 2) * ((path.length + 1) * (pats.length + 1))

/-- Port of `matchSegments` (wildmatch.go). -/
def matchSegments (patSegs : List Seg) (pathSegs : List (List Nat)) : Bool :=
  (msLoop patSegs pathSegs 0 0 none (msFuel patSegs pathSegs)).getD false

/-! ### part_001 : pattern compiler and matcher -/

/-- Port of `strings.Split` for a one-byte separator. -/
def splitOn (sep : Nat) : List Nat → List (List Nat)
  | [] => [[]]
  | c :: rest =>
    if c = sep then [] :: splitOn sep rest
    else
      match splitOn sep rest with
      | h :: t => (c :: h) :: t
      | [] => [[c]]

def splitSlash (s : List Nat) : List (List Nat) := splitOn bSLASH s

/-- Port of the `pattern` struct (part_001).  The Go field `prefix` is named
`prfx` here. -/
structure Pattern where
  segments : List Seg
  negate : Bool
  dirOnly : Bool
  hasConcrete : Bool
  anchored : Bool
  prfx : List Nat
  text : List Nat
  source : List Nat
  line : Nat
  literalSuffix : List Nat
deriving DecidableEq

/-- The Go zero value of `pattern`, returned together with an error message. -/
def emptyPattern : Pattern :=
  { segments := [], negate := false, dirOnly := false, hasConcrete := false,
    anchored := false, prfx := [], text := [], source := [], line := 0, literalSuffix := [] }

/-- Port of `PatternError` (part_001). -/
structure PatternError where
  pattern : List Nat
  source : List Nat
  line : Nat
  message : List Nat
deriving DecidableEq

/-- The digit-producing loop of `itoa` (part_001), fuel-modelled (`n`
iterations always suffice since `n / 10 < n` for positive `n`). -/
def itoaLoop : Nat → Nat → List Nat → List Nat
  | 0, _, acc => acc
  | fuel + 1, n, acc => if n = 0 then acc else itoaLoop fuel (n / 10) ((48 + n % 10) :: acc)

/-- Port of `itoa` (part_001). -/
def itoa (n : Nat) : List Nat := if n = 0 then [48] else itoaLoop n n []

/-- Port of `PatternError.Error` (part_001). -/
def patternErrorString (e : PatternError) : List Nat :=
  if ¬ e.source = [] then
    e.source ++ [bCOLON] ++ itoa e.line ++ gs ": invalid pattern: " ++ e.pattern
      ++ gs ": " ++ e.message
  else
    gs "invalid pattern: " ++ e.pattern ++ gs ": " ++ e.message

/-- Port of `trimTrailingSpaces` (part_001): the final value of the scan
index `i`, computed right-to-left. -/
def ttsIdx (s : List Nat) : Nat → Nat
  | 0 => 0
  | i + 1 =>
    if s.getD i 0 = bSP then
      if 1 ≤ i ∧ s.getD (i - 1) 0 = bBSL then i + 1 else ttsIdx s i
    else i + 1

def trimTrailingSpaces (s : List Nat) : List Nat := s.take (ttsIdx s s.length)

/-- Port of `validPosixClassName` (part_001). -/
def validPosixClassName (name : List Nat) : Bool :=
  name = gs "alnum" ∨ name = gs "alpha" ∨ name = gs "blank" ∨ name = gs "cntrl" ∨
  name = gs "digit" ∨ name = gs "graph" ∨ name = gs "lower" ∨ name = gs "print" ∨
  name = gs "punct" ∨ name = gs "space" ∨ name = gs "upper" ∨ name = gs "xdigit"

/-- The inner scan of `validateBrackets` (part_001): advance `j` to the
closing `']'`, reporting unknown POSIX class names.  `Sum.inl msg` is an
error, `Sum.inr j` the final scan position.  Fuel-modelled; `j` strictly
increases each step so `glob.length + 2` fuel is never exhausted. -/
def vbScan (glob : List Nat) : Nat → Nat → (List Nat) ⊕ Nat
  | 0, j => Sum.inr j
  | fuel + 1, j =>
    if j < glob.length ∧ ¬ glob.getD j 0 = bRBR then
      if glob.getD j 0 = bBSL ∧ j + 1 < glob.length then vbScan glob fuel (j + 2)
      else if glob.getD j 0 = bLBR ∧ j + 1 < glob.length ∧ glob.getD (j + 1) 0 = bCOLON then
        match findPosixClassEnd glob (j + 2) with
        | some e =>
          if validPosixClassName ((glob.drop (j + 2)).take (e - (j + 2))) then
            vbScan glob fuel (e + 2)
          else
            Sum.inl (gs "unknown POSIX class [:" ++ (glob.drop (j + 2)).take (e - (j + 2))
              ++ gs ":]")
        | none => vbScan glob fuel (j + 1)
      else vbScan glob fuel (j + 1)
    else Sum.inr j

/-- Initial inner-scan position for a bracket starting at `i` (part of
`validateBrackets`): skip `'['`, an optional `'!'`/`'^'`, and a leading
literal `']'`. -/
def vbStart (glob : List Nat) (i : Nat) : Nat :=
  let j₁ := if i + 1 < glob.length ∧
      (glob.getD (i + 1) 0 = bBANG ∨ glob.getD (i + 1) 0 = bCARET) then i + 2 else i + 1
  if j₁ < glob.length ∧ glob.getD j₁ 0 = bRBR then j₁ + 1 else j₁

/-- The outer loop of `validateBrackets` (part_001), fuel-modelled. -/
def vbOuter (glob : List Nat) : Nat → Nat → List Nat
  | 0, _ => []
  | fuel + 1, i =>
    if i < glob.length then
      if glob.getD i 0 = bBSL ∧ i + 1 < glob.length then vbOuter glob fuel (i + 2)
      else if ¬ glob.getD i 0 = bLBR then vbOuter glob fuel (i + 1)
      else
        match vbScan glob (glob.length + 2) (vbStart glob i) with
        | Sum.inl msg => msg
        | Sum.inr j =>
          if glob.length ≤ j then vbOuter glob fuel (i + 1) else vbOuter glob fuel (j + 1)
    else []

/-- Port of `validateBrackets` (part_001). -/
def validateBrackets (glob : List Nat) : List Nat := vbOuter glob (glob.length + 2) 0

/-- The validation loop over compiled segments in `compilePattern`
(part_001, lines 495-502). -/
def validateSegs : List Seg → List Nat
  | [] => []
  | s :: rest =>
    if s.doubleStar then validateSegs rest
    else
      match validateBrackets s.raw with
      | [] => validateSegs rest
      | msg => msg

/-- Port of `strings.LastIndex(last, "*")`. -/
def lastIndexOfStar (l : List Nat) : Option Nat :=
  (l.reverse.findIdx? (fun b => b = bSTAR)).map (fun k => l.length - 1 - k)

/-- Port of `extractLiteralSuffix` (part_001). -/
def extractLiteralSuffix (segs : List Seg) : List Nat :=
  let last := ((segs.reverse.find? (fun s => !s.doubleStar)).map (fun s => s.raw)).getD []
  if last = [] then []
  else
    match lastIndexOfStar last with
    | none => []
    | some si =>
      if last.drop (si + 1) = [] then []
      else if (last.drop (si + 1)).any (fun b => b = bSTAR ∨ b = bQM ∨ b = bLBR ∨ b = bBSL)
        then []
      else last.drop (si + 1)

/-- Negation strip of `compilePattern` (part_001): leading `'!'`. -/
def stripNegate (l : List Nat) : Bool × List Nat :=
  if l.head? = some bBANG then (true, l.tail) else (false, l)

/-- Escaped-marker strip of `compilePattern` (part_001): leading `\\#`, `\\!`. -/
def stripEscapedMark (l : List Nat) : List Nat :=
  if 2 ≤ l.length ∧ l.getD 0 0 = bBSL ∧ (l.getD 1 0 = bHASH ∨ l.getD 1 0 = bBANG)
    then l.tail else l

/-- Directory-only strip of `compilePattern` (part_001): trailing `'/'` when
the text is longer than one byte. -/
def stripDirSlash (l : List Nat) : Bool × List Nat :=
  if 1 < l.length ∧ l.getLast? = some bSLASH then (true, l.dropLast) else (false, l)

/-- Segment-list construction of `compilePattern` (part_001): optional
leading `**`, then one segment per raw piece. -/
def buildSegs (anchored : Bool) (rawSegs : List (List Nat)) : List Seg :=
  (if anchored then [] else [Seg.mk true []]) ++
    rawSegs.map (fun r => if r = gs "**" then Seg.mk true [] else Seg.mk false r)

/-- The collapse loop of `compilePattern` (part_001): `prev` is the last
segment kept so far (Go's `collapsed[len(collapsed)-1]`). -/
def collapseGo (prev : Seg) : List Seg → List Seg
  | [] => []
  | s :: rest =>
    if s.doubleStar ∧ prev.doubleStar then collapseGo prev rest else s :: collapseGo s rest

/-- Collapse of consecutive `**` segments (part_001, lines 485-492). -/
def collapseStars : List Seg → List Seg
  | [] => []
  | s :: rest => s :: collapseGo s rest

/-- Whether the last segment is a `**` (`segs[len(segs)-1].doubleStar`,
false for an empty list). -/
def lastIsStar (segs : List Seg) : Bool :=
  match segs.getLast? with
  | some s => s.doubleStar
  | none => false

/-- Implicit trailing `**` for non-dir-only patterns (part_001, lines
506-511). -/
def addTrailingStar (dirOnly : Bool) (segs : List Seg) : List Seg :=
  if ¬ dirOnly = true ∧ lastIsStar segs = false then segs ++ [Seg.mk true []] else segs

/-- Port of `compilePattern` (part_001): returns the compiled pattern and an
empty message on success, the zero pattern and an error message on failure. -/
def compilePattern (line0 dir : List Nat) : Pattern × List Nat :=
  let negate := (stripNegate line0).1
  let line2 := stripEscapedMark (stripNegate line0).2
  if line2 = [] ∨ line2 = [bSLASH] then (emptyPattern, gs "empty pattern")
  else
    let dirOnly := (stripDirSlash line2).1
    let line3 := (stripDirSlash line2).2
    let hasLeadingSlash : Bool := line3.head? = some bSLASH
    let line4 := if hasLeadingSlash then line3.tail else line3
    if hasLeadingSlash ∧ line4 = [] then (emptyPattern, gs "empty pattern")
    else
      let rawSegs := splitSlash line4
      let anchored := hasLeadingSlash || decide (1 < rawSegs.length)
      let segs1 := collapseStars (buildSegs anchored rawSegs)
      match validateSegs segs1 with
      | [] =>
        let segs2 := addTrailingStar dirOnly segs1
        ({ segments := segs2, negate := negate, dirOnly := dirOnly,
           hasConcrete := segs2.any (fun s => !s.doubleStar), anchored := anchored,
           prfx := dir, text := [], source := [], line := 0,
           literalSuffix := extractLiteralSuffix segs2 }, [])
      | msg => (emptyPattern, msg)

/-- Port of `bufio.Scanner` line splitting used by `addPatterns` (part_001):
split on `'\n'`, no trailing empty line for a final newline, strip one
trailing `'\r'` per line. -/
def dropCR (l : List Nat) : List Nat := if l.getLast? = some bCR then l.dropLast else l

def scanLines (data : List Nat) : List (List Nat) :=
  if data = [] then []
  else
    (if data.getLast? = some bNL then (splitOn bNL data).dropLast else splitOn bNL data).map
      dropCR

/-- The scanning loop of `Matcher.addPatterns` (part_001): returns the
patterns and errors produced from the given lines, in line order.
`lineNum` is the number of lines already consumed. -/
def addPatternsGo (dir source : List Nat) : List (List Nat) → Nat → List Pattern × List PatternError
  | [], _ => ([], [])
  | l :: rest, lineNum =>
    let line := trimTrailingSpaces l
    let r := addPatternsGo dir source rest (lineNum + 1)
    if line = [] ∨ line.head? = some bHASH then r
    else
      match compilePattern line dir with
      | (p, []) =>
        ({ p with text := line, source := source, line := lineNum + 1 } :: r.1, r.2)
      | (_, msg) =>
        (r.1, { pattern := line, source := source, line := lineNum + 1, message := msg } :: r.2)

/-- Port of `Matcher.addPatterns` (part_001): the patterns and errors
appended for one input buffer. -/
def addPatterns (data dir source : List Nat) : List Pattern × List PatternError :=
  addPatternsGo dir source (scanLines data) 0

/-- Prefix-scope gating of `matchPattern` (part_001, lines 345-357): `none`
when the path is outside the pattern's directory scope, otherwise the path
segments with the scope prefix removed. -/
def prefixGate (prfx : List Nat) (pathSegs : List (List Nat)) : Option (List (List Nat)) :=
  if prfx = [] then some pathSegs
  else
    if pathSegs.length < (splitSlash prfx).length then none
    else if ((splitSlash prfx).zip pathSegs).all (fun q => q.1 = q.2) then
      some (pathSegs.drop (splitSlash prfx).length)
    else none

/-- The descendant loop of `matchPattern` (part_001, lines 374-378): try the
pattern against every strict prefix `segs[:end]` for `end` from
`len(segs)-1` down to `1`. -/
def descend (patSegs : List Seg) (segs : List (List Nat)) : Nat → Bool
  | 0 => false
  | e + 1 => matchSegments patSegs (segs.take (e + 1)) || descend patSegs segs e

/-- Port of `matchPattern` (part_001). -/
def matchPattern (p : Pattern) (pathSegs : List (List Nat)) (isDir : Bool) : Bool :=
  match prefixGate p.prfx pathSegs with
  | none => false
  | some segs =>
    if p.dirOnly then
      if matchSegments p.segments segs then isDir
      else if !p.hasConcrete then false
      else descend p.segments segs (segs.length - 1)
    else matchSegments p.segments segs

/-- The literal-suffix fast-reject condition of `Matcher.match` (part_001,
line 307): the pattern is skipped without structural matching. -/
def suffixSkip (p : Pattern) (lastSeg : List Nat) : Bool :=
  ¬ p.literalSuffix = [] ∧ ¬ p.literalSuffix.isSuffixOf lastSeg

/-- The reverse iteration of `Matcher.match` (part_001): patterns are given
newest first. -/
def matchRev (pathSegs : List (List Nat)) (lastSeg : List Nat) (isDir : Bool) :
    List Pattern → Bool
  | [] => false
  | p :: rest =>
    if suffixSkip p lastSeg then matchRev pathSegs lastSeg isDir rest
    else if matchPattern p pathSegs isDir then !p.negate
    else matchRev pathSegs lastSeg isDir rest

/-- Port of `Matcher.match` (part_001) after the path has been split on
`'/'`: patterns are held in insertion order and iterated from the last. -/
def matcherMatch (pats : List Pattern) (pathSegs : List (List Nat)) (isDir : Bool) : Bool :=
  matchRev pathSegs (pathSegs.getLastD []) isDir pats.reverse

/-- Port of `Matcher.match` (part_001) on the raw slash-separated path. -/
def matcherMatchPath (pats : List Pattern) (relPath : List Nat) (isDir : Bool) : Bool :=
  matcherMatch pats (splitSlash relPath) isDir

/-! ### Declarative matching semantics

The specification describes both matchers compositionally: a star consumes
zero or more elements, an ordinary token consumes exactly one matching
element.  `declG` is that semantics over an abstract token alphabet; the
pattern-segment and glob-byte instances follow. -/

/-- An abstract matching token: `star` consumes zero or more elements,
`item p` consumes exactly one element satisfying `p`. -/
inductive MTok (α : Type) : Type
  | star : MTok α
  | item : (α → Bool) → MTok α

def isStarTok {α : Type} : MTok α → Bool
  | .star => true
  | .item _ => false

/-- Declarative matching: a token list matches an input list iff the input
splits, in order, with every `star` consuming zero or more consecutive
elements and every `item p` consuming exactly one element satisfying `p`. -/
def declG {α : Type} (ts : List (MTok α)) (xs : List α) : Bool :=
  match ts, xs with
  | [], [] => true
  | [], _ :: _ => false
  | .item _ :: _, [] => false
  | .item p :: ts', x :: xs' => p x && declG ts' xs'
  | .star :: ts', [] => declG ts' []
  | .star :: ts', x :: xs' => declG ts' (x :: xs') || declG (.star :: ts') xs'
termination_by (xs.length, ts.length)

/-- The token denotation of one compiled pattern segment: `**` is a star and
a literal segment consumes one path component accepted by the
character-level matcher (the spec's segment-matching contract). -/
def segTok (s : Seg) : MTok (List Nat) :=
  if s.doubleStar then .star else .item (fun t => matchSegment s.raw t)

/-- Declarative segment-level matching (the contract of `matchSegments`). -/
def declSegs (patSegs : List Seg) (pathSegs : List (List Nat)) : Bool :=
  declG (patSegs.map segTok) pathSegs

/-- Byte-level tokenization of a glob, mirroring the case analysis of
`matchSegment`: `\\X` is a literal `X` (a trailing `\\` is a literal
backslash), `?` consumes any byte, `*` is a star, a well-formed bracket is a
one-byte class judged by the bracket evaluator `matchBracket`, a malformed
bracket is a literal `'['`, any other byte is a literal. -/
def tokenizeFrom (glob : List Nat) (gx : Nat) : List (MTok Nat) :=
  if h : gx < glob.length then
    if glob.getD gx 0 = bBSL ∧ gx + 1 < glob.length then
      .item (fun b => decide (b = glob.getD (gx + 1) 0)) :: tokenizeFrom glob (gx + 2)
    else if glob.getD gx 0 = bQM then
      .item (fun _ => true) :: tokenizeFrom glob (gx + 1)
    else if glob.getD gx 0 = bSTAR then
      .star :: tokenizeFrom glob (gx + 1)
    else if glob.getD gx 0 = bLBR then
      if hB : (matchBracket glob gx 0).2.2 = true then
        .item (fun b => (matchBracket glob gx b).1) ::
          tokenizeFrom glob (matchBracket glob gx 0).2.1
      else
        .item (fun b => decide (b = bLBR)) :: tokenizeFrom glob (gx + 1)
    else
      .item (fun b => decide (b = glob.getD gx 0)) :: tokenizeFrom glob (gx + 1)
  else []
termination_by glob.length - gx
decreasing_by
  · omega
  · omega
  · omega
  · have := matchBracket_ok_bounds glob gx 0 hB
    omega
  · omega
  · omega

/-- Declarative character-level matching (the contract of `matchSegment`). -/
def declSegment (glob text : List Nat) : Bool := declG (tokenizeFrom glob 0) text

/-! ### Lemmas about the declarative semantics -/

theorem declG_nil {α : Type} (xs : List α) :
    declG ([] : List (MTok α)) xs = xs.isEmpty := by
  cases xs <;> simp [declG]

theorem declG_item_nil {α : Type} (p : α → Bool) (ts : List (MTok α)) :
    declG (.item p :: ts) [] = false := by
  simp [declG]

theorem declG_item_cons {α : Type} (p : α → Bool) (ts : List (MTok α)) (x : α) (xs : List α) :
    declG (.item p :: ts) (x :: xs) = (p x && declG ts xs) := by
  simp [declG]

theorem declG_star_nil {α : Type} (ts : List (MTok α)) :
    declG (.star :: ts) [] = declG ts [] := by
  simp [declG]

theorem declG_star_cons {α : Type} (ts : List (MTok α)) (x : α) (xs : List α) :
    declG (.star :: ts) (x :: xs) = (declG ts (x :: xs) || declG (.star :: ts) xs) := by
  simp [declG]

/-- A star consumes an arbitrary number of leading elements. -/
theorem declG_star_iff {α : Type} (ts : List (MTok α)) (xs : List α) :
    declG (.star :: ts) xs = true ↔ ∃ k, declG ts (xs.drop k) = true := by
  induction xs with
  | nil =>
    rw [declG_star_nil]
    constructor
    · intro h; exact ⟨0, h⟩
    · rintro ⟨k, hk⟩; simpa using hk
  | cons x xs ih =>
    rw [declG_star_cons]
    simp only [Bool.or_eq_true]
    constructor
    · rintro (h | h)
      · exact ⟨0, h⟩
      · obtain ⟨k, hk⟩ := ih.1 h
        exact ⟨k + 1, by simpa using hk⟩
    · rintro ⟨k, hk⟩
      cases k with
      | zero => left; exact hk
      | succ k => right; exact ih.2 ⟨k, by simpa using hk⟩

/-- On empty input, a token list matches iff it consists of stars only. -/
theorem declG_nil_input {α : Type} (ts : List (MTok α)) :
    declG ts [] = ts.all isStarTok := by
  induction ts with
  | nil => simp [declG]
  | cons t ts ih =>
    cases t with
    | star => rw [declG_star_nil, ih]; simp [isStarTok]
    | item p => rw [declG_item_nil]; simp [isStarTok]

/-- Concatenation of token lists: the input splits between them. -/
theorem declG_append {α : Type} (ts us : List (MTok α)) :
    ∀ xs : List α, declG (ts ++ us) xs = true ↔
      ∃ n, declG ts (xs.take n) = true ∧ declG us (xs.drop n) = true := by
  induction ts with
  | nil =>
    intro xs
    constructor
    · intro h; exact ⟨0, by simp [declG], by simpa using h⟩
    · rintro ⟨n, h1, h2⟩
      rw [declG_nil] at h1
      have : xs.take n = [] := by simpa using h1
      have hx : n = 0 ∨ xs = [] := by
        rcases List.take_eq_nil_iff.1 this with h | h
        · left; exact h
        · right; exact h
      rcases hx with rfl | rfl
      · simpa using h2
      · simpa using h2
  | cons t ts ih =>
    intro xs
    cases t with
    | item p =>
      cases xs with
      | nil =>
        rw [List.cons_append, declG_item_nil]
        constructor
        · intro h; cases h
        · rintro ⟨n, h1, h2⟩
          rw [List.take_nil, declG_item_nil] at h1
          cases h1
      | cons x xs =>
        rw [List.cons_append, declG_item_cons]
        constructor
        · intro h
          rw [Bool.and_eq_true] at h
          obtain ⟨n, h1, h2⟩ := (ih xs).1 h.2
          refine ⟨n + 1, ?_, ?_⟩
          · rw [List.take_succ_cons, declG_item_cons, h.1, h1]; rfl
          · simpa using h2
        · rintro ⟨n, h1, h2⟩
          cases n with
          | zero => rw [List.take_zero, declG_item_nil] at h1; cases h1
          | succ n =>
            rw [List.take_succ_cons, declG_item_cons, Bool.and_eq_true] at h1
            rw [Bool.and_eq_true]
            exact ⟨h1.1, (ih xs).2 ⟨n, h1.2, by simpa using h2⟩⟩
    | star =>
      rw [List.cons_append]
      rw [declG_star_iff]
      constructor
      · rintro ⟨k, hk⟩
        obtain ⟨n, h1, h2⟩ := (ih (xs.drop k)).1 hk
        refine ⟨k + n, ?_, ?_⟩
        · rw [declG_star_iff]
          refine ⟨k, ?_⟩
          rw [take_drop_comm]
          have : k + n - k = n := by omega
          rw [this]
          exact h1
        · rw [← drop_add]; exact h2
      · rintro ⟨n, h1, h2⟩
        rw [declG_star_iff] at h1
        obtain ⟨k, hk⟩ := h1
        by_cases hkn : k ≤ n
        · refine ⟨k, (ih (xs.drop k)).2 ⟨n - k, ?_, ?_⟩⟩
          · rw [← take_drop_comm]; exact hk
          · rw [drop_add]
            have : k + (n - k) = n := by omega
            rw [this]; exact h2
        · refine ⟨n, (ih (xs.drop n)).2 ⟨0, ?_, ?_⟩⟩
          · rw [List.take_zero]
            have hnil : (xs.take n).drop k = [] := by
              apply drop_of_ge_length
              have := List.length_take n xs
              omega
            rw [hnil] at hk
            exact hk
          · rw [List.drop_zero]; exact h2

/-! ### Star-free token lists are deterministic -/

/-- A token list with no `star`. -/
def starFreeL {α : Type} (ts : List (MTok α)) : Prop := ∀ t ∈ ts, isStarTok t = false

theorem starFreeL_nil {α : Type} : starFreeL ([] : List (MTok α)) := by
  intro t ht; cases ht

theorem starFreeL_append_item {α : Type} {A : List (MTok α)} (hA : starFreeL A)
    (p : α → Bool) : starFreeL (A ++ [.item p]) := by
  intro t ht
  rcases List.mem_append.1 ht with h | h
  · exact hA t h
  · rcases List.mem_singleton.1 h with rfl
    rfl

/-- A star-free token list consumes the input exactly. -/
theorem starFree_length {α : Type} {A : List (MTok α)} (hA : starFreeL A) :
    ∀ {xs : List α}, declG A xs = true → xs.length = A.length := by
  induction A with
  | nil =>
    intro xs h
    rw [declG_nil] at h
    rw [List.isEmpty_iff] at h
    simp [h]
  | cons t A ih =>
    intro xs h
    cases t with
    | star =>
      have := hA .star (by simp)
      simp [isStarTok] at this
    | item p =>
      cases xs with
      | nil => rw [declG_item_nil] at h; cases h
      | cons x xs =>
        rw [declG_item_cons, Bool.and_eq_true] at h
        have hA' : starFreeL A := fun t ht => hA t (by simp [ht])
        have := ih hA' h.2
        simp [this]

/-- A star-free token list matching a `take`-prefix pins down the cut. -/
theorem starFree_take {α : Type} {A : List (MTok α)} (hA : starFreeL A)
    {xs : List α} {n : Nat} (h : declG A (xs.take n) = true) :
    A.length ≤ xs.length ∧ xs.take n = xs.take A.length ∧ xs.drop n = xs.drop A.length := by
  have hlen := starFree_length hA h
  rw [List.length_take] at hlen
  by_cases hn : n ≤ xs.length
  · have : n = A.length := by omega
    subst this
    exact ⟨by omega, rfl, rfl⟩
  · have h1 : A.length = xs.length := by omega
    have h2 : xs.take n = xs := List.take_of_length_le (by omega)
    have h3 : xs.take A.length = xs := List.take_of_length_le (by omega)
    have h4 : xs.drop n = [] := drop_of_ge_length _ _ (by omega)
    have h5 : xs.drop A.length = [] := drop_of_ge_length _ _ (by omega)
    rw [h2, h3, h4, h5]
    exact ⟨by omega, rfl, rfl⟩

theorem get?_eq_getD {α : Type} :
    ∀ (l : List α) (n : Nat) (d : α), n < l.length → l.get? n = some (l.getD n d)
  | x :: xs, 0, d, _ => rfl
  | x :: xs, n + 1, d, h => by
    rw [List.get?_cons_succ]
    exact get?_eq_getD xs n d (by simpa using h)

theorem drop_cons_getD {α : Type} (l : List α) (n : Nat) (d : α) (h : n < l.length) :
    l.drop n = l.getD n d :: l.drop (n + 1) :=
  drop_eq_cons_of_get? l n (l.getD n d) (get?_eq_getD l n d h)

theorem take_succ_getD {α : Type} :
    ∀ (l : List α) (n : Nat) (d : α), n < l.length →
      l.take (n + 1) = l.take n ++ [l.getD n d]
  | x :: xs, 0, d, _ => rfl
  | x :: xs, n + 1, d, h => by
    rw [List.take_succ_cons, List.take_succ_cons, take_succ_getD xs n d (by simpa using h)]
    rfl

/-! ### Goal-conversion lemmas for the backtracking loops

These describe how the semantic goal of the two-pointer loops changes at
each kind of transition.  `A` is the star-free token run matched since the
saved star, spanning input positions `st` to `tx`. -/

/-- Passing a star with no previously saved star. -/
theorem goal_star_skip {α : Type} (ts : List (MTok α)) (xs : List α) (tx : Nat) :
    (declG (.star :: ts) (xs.drop tx) = true) ↔ (∃ k, tx ≤ k ∧ declG ts (xs.drop k) = true) := by
  rw [declG_star_iff]
  constructor
  · rintro ⟨k, hk⟩
    rw [drop_add] at hk
    exact ⟨tx + k, by omega, hk⟩
  · rintro ⟨k, htx, hk⟩
    refine ⟨k - tx, ?_⟩
    rw [drop_add]
    have : tx + (k - tx) = k := by omega
    rw [this]
    exact hk

/-- Passing a star with a saved star: the old saved star is forgotten. -/
theorem goal_star_some {α : Type} {A ts : List (MTok α)} {xs : List α} {st tx : Nat}
    (hA : starFreeL A) (hw : declG A ((xs.drop st).take A.length) = true)
    (htx : tx = st + A.length) :
    (∃ k, st ≤ k ∧ declG (A ++ .star :: ts) (xs.drop k) = true) ↔
    (∃ k, tx ≤ k ∧ declG ts (xs.drop k) = true) := by
  constructor
  · rintro ⟨k, hst, h⟩
    obtain ⟨n, h1, h2⟩ := (declG_append A (.star :: ts) (xs.drop k)).1 h
    obtain ⟨_, _, hdrop⟩ := starFree_take hA h1
    rw [hdrop, drop_add] at h2
    rw [declG_star_iff] at h2
    obtain ⟨j, hj⟩ := h2
    rw [drop_add] at hj
    exact ⟨k + A.length + j, by omega, hj⟩
  · rintro ⟨k, htx', h⟩
    refine ⟨st, Nat.le_refl _, ?_⟩
    refine (declG_append A (.star :: ts) (xs.drop st)).2 ⟨A.length, hw, ?_⟩
    rw [drop_add, ← htx]
    rw [declG_star_iff]
    refine ⟨k - tx, ?_⟩
    rw [drop_add]
    have : tx + (k - tx) = k := by omega
    rw [this]
    exact h

/-- With a saved star, consuming one more element appends it to the
star-free run. -/
theorem window_extend {α : Type} {A : List (MTok α)} {xs : List α} {st tx : Nat}
    (hA : starFreeL A) (hw : declG A ((xs.drop st).take A.length) = true)
    (htx : tx = st + A.length) (hlt : tx < xs.length) (p : α → Bool) (d : α)
    (hp : p (xs.getD tx d) = true) :
    declG (A ++ [.item p]) ((xs.drop st).take (A.length + 1)) = true := by
  refine (declG_append A [.item p] ((xs.drop st).take (A.length + 1))).2 ⟨A.length, ?_, ?_⟩
  · rw [List.take_take]
    have : min A.length (A.length + 1) = A.length := by omega
    rw [this]
    exact hw
  · rw [take_drop_comm]
    have h1 : A.length + 1 - A.length = 1 := by omega
    rw [h1, drop_add]
    rw [← htx]
    have h2 : (xs.drop tx).take 1 = [xs.getD tx d] := by
      rw [drop_cons_getD xs tx d hlt]
      rfl
    rw [h2, declG_item_cons, hp]
    simp [declG]

/-- With a saved star, a failing continuation token refutes the
current backtrack start `st`. -/
theorem fail_at_st_item {α : Type} {A ts : List (MTok α)} {xs : List α} {st tx : Nat}
    (hA : starFreeL A) (hw : declG A ((xs.drop st).take A.length) = true)
    (htx : tx = st + A.length) (hlt : tx < xs.length) {p : α → Bool} {d : α}
    (hp : p (xs.getD tx d) = false) :
    ¬ declG (A ++ .item p :: ts) (xs.drop st) = true := by
  intro h
  obtain ⟨n, h1, h2⟩ := (declG_append A (.item p :: ts) (xs.drop st)).1 h
  obtain ⟨_, _, hdrop⟩ := starFree_take hA h1
  rw [hdrop, drop_add, ← htx] at h2
  rw [drop_cons_getD xs tx d hlt, declG_item_cons, hp] at h2
  cases h2

/-- With a saved star and the token list exhausted, the current backtrack
start `st` is refuted while input remains. -/
theorem fail_at_st_nil {α : Type} {A : List (MTok α)} {xs : List α} {st tx : Nat}
    (hA : starFreeL A) (hw : declG A ((xs.drop st).take A.length) = true)
    (htx : tx = st + A.length) (hlt : tx < xs.length) :
    ¬ declG (A ++ []) (xs.drop st) = true := by
  intro h
  rw [List.append_nil] at h
  have := starFree_length hA h
  rw [List.length_drop] at this
  omega

/-- Input exhausted with a saved star: the run consumed everything from
`st`, so the match succeeds iff the remaining tokens are all stars. -/
theorem goal_term_some {α : Type} {A ts : List (MTok α)} {xs : List α} {st tx : Nat}
    (hA : starFreeL A) (hw : declG A ((xs.drop st).take A.length) = true)
    (htx : tx = st + A.length) (hend : tx = xs.length) :
    (∃ k, st ≤ k ∧ declG (A ++ ts) (xs.drop k) = true) ↔ ts.all isStarTok = true := by
  constructor
  · rintro ⟨k, hst, h⟩
    obtain ⟨n, h1, h2⟩ := (declG_append A ts (xs.drop k)).1 h
    obtain ⟨hle, _, hdrop⟩ := starFree_take hA h1
    rw [hdrop, drop_add] at h2
    have : xs.drop (k + A.length) = [] := drop_of_ge_length _ _ (by omega)
    rw [this, declG_nil_input] at h2
    exact h2
  · intro h
    refine ⟨st, Nat.le_refl _, ?_⟩
    refine (declG_append A ts (xs.drop st)).2 ⟨A.length, hw, ?_⟩
    rw [drop_add]
    have : xs.drop (st + A.length) = [] := drop_of_ge_length _ _ (by omega)
    rw [this, declG_nil_input]
    exact h


/-! ### Mixed-radix measure for the backtracking loops -/

/-- Encoded saved-star position: the Go `-1` initial value is `0`. -/
def encStar : Option (Nat × Nat) → Nat
  | none => 0
  | some (_, st) => st + 1

/-- Lexicographic decrease of bounded digits gives numeric decrease. -/
theorem mixed_lt {B C a b c a' b' c' : Nat} (hb' : b' < B) (hc' : c' < C)
    (h : a' < a ∨ (a' = a ∧ (b' < b ∨ (b' = b ∧ c' < c)))) :
    a' * (B * C) + (b' * C + c') < a * (B * C) + (b * C + c) := by
  have hbc' : b' * C + c' < B * C := by
    have h1 : b' * C + c' < b' * C + C := by omega
    have h2 : b' * C + C = (b' + 1) * C := by ring
    have h3 : (b' + 1) * C ≤ B * C := Nat.mul_le_mul_right C (by omega)
    omega
  rcases h with h | ⟨rfl, h⟩
  · have h1 : a' * (B * C) + (b' * C + c') < (a' + 1) * (B * C) := by
      have : (a' + 1) * (B * C) = a' * (B * C) + B * C := by ring
      omega
    have h2 : (a' + 1) * (B * C) ≤ a * (B * C) := Nat.mul_le_mul_right _ (by omega)
    omega
  · rcases h with h | ⟨rfl, h⟩
    · have h0 : (b' + 1) * C = b' * C + C := by ring
      have h1 : b' * C + c' < (b' + 1) * C := by omega
      have h2 : (b' + 1) * C ≤ b * C := Nat.mul_le_mul_right C (by omega)
      omega
    · omega

/-- Upper bound on a mixed-radix value with a bounded leading digit. -/
theorem mixed_bound {B C a b c A : Nat} (ha : a ≤ A) (hb : b < B) (hc : c < C) :
    a * (B * C) + (b * C + c) < (A + 1) * (B * C) := by
  have hbc : b * C + c < B * C := by
    have h1 : b * C + c < b * C + C := by omega
    have h2 : b * C + C = (b + 1) * C := by ring
    have h3 : (b + 1) * C ≤ B * C := Nat.mul_le_mul_right C (by omega)
    omega
  have h1 : a * (B * C) + (b * C + c) < (a + 1) * (B * C) := by
    have : (a + 1) * (B * C) = a * (B * C) + B * C := by ring
    omega
  have h2 : (a + 1) * (B * C) ≤ (A + 1) * (B * C) := Nat.mul_le_mul_right _ (by omega)
  omega

/-- Termination measure of the two-pointer loops: saved-star position
(major), text position, pattern position (minor). -/
def loopMu (S P tx px : Nat) (star : Option (Nat × Nat)) : Nat :=
  (S + 1 - encStar star) * ((S + 1) * (P + 1)) + ((S - tx) * (P + 1) + (P - px))

theorem get?_some_lt {α : Type} :
    ∀ {l : List α} {n : Nat} {a : α}, l.get? n = some a → n < l.length
  | x :: xs, 0, a, _ => by simp
  | x :: xs, n + 1, a, h => by
    rw [List.get?_cons_succ] at h
    have := get?_some_lt h
    simpa using this
  | [], n, a, h => by cases h

theorem mapDrop {α β : Type} (f : α → β) :
    ∀ (l : List α) (n : Nat), (l.map f).drop n = (l.drop n).map f := by
  intro l
  induction l with
  | nil => intro n; simp
  | cons x xs ih =>
    intro n
    cases n with
    | zero => simp
    | succ m => simpa using ih m

theorem mapDrop_cons {pats : List Seg} {px : Nat} {sg : Seg} (h : pats.get? px = some sg) :
    (pats.map segTok).drop px = segTok sg :: (pats.map segTok).drop (px + 1) := by
  apply drop_eq_cons_of_get?
  rw [List.get?_map, h]
  rfl

theorem segTok_star {sg : Seg} (h : sg.doubleStar = true) : segTok sg = .star := by
  unfold segTok
  rw [if_pos h]

theorem segTok_item {sg : Seg} (h : ¬ sg.doubleStar = true) :
    segTok sg = .item (fun t => matchSegment sg.raw t) := by
  unfold segTok
  rw [if_neg h]

theorem allStar_map (l : List Seg) :
    (l.map segTok).all isStarTok = l.all (·.doubleStar) := by
  induction l with
  | nil => rfl
  | cons s rest ih =>
    simp only [List.map_cons, List.all_cons, ih]
    cases h : s.doubleStar
    · rw [segTok_item (by simp [h])]; rfl
    · rw [segTok_star h]; rfl


/-! ### Correctness and termination of the segment-level loop -/

/-- Loop invariant of `msLoop`.  With a saved star at `(sp, st)`, `A` is the
star-free token run between the star and the current pattern position,
matched against the input window starting at `st`. -/
def MsInv (pats : List Seg) (path : List (List Nat)) (px tx : Nat) :
    Option (Nat × Nat) → Prop
  | none => tx ≤ path.length
  | some (sp, st) =>
      (∃ s, pats.get? sp = some s ∧ s.doubleStar = true) ∧
      ∃ A, (pats.map segTok).drop (sp + 1) = A ++ (pats.map segTok).drop px ∧
        starFreeL A ∧ declG A ((path.drop st).take A.length) = true ∧
        tx = st + A.length ∧ tx ≤ path.length

/-- Semantic meaning of an `msLoop` state: with no saved star the remaining
tokens must match the remaining input; with a saved star the tokens after
the star must match some suffix starting at or after `st`. -/
def MsGoal (pats : List Seg) (path : List (List Nat)) (px tx : Nat) :
    Option (Nat × Nat) → Prop
  | none => declG ((pats.map segTok).drop px) (path.drop tx) = true
  | some (sp, st) =>
      ∃ k, st ≤ k ∧ declG ((pats.map segTok).drop (sp + 1)) (path.drop k) = true

/-- One-step unfolding of `msLoop`. -/
theorem msLoop_succ (pats : List Seg) (path : List (List Nat)) (px tx : Nat)
    (star : Option (Nat × Nat)) (fuel : Nat) :
    msLoop pats path px tx star (fuel + 1) =
      if tx < path.length then
        match pats.get? px with
        | some sg =>
          if sg.doubleStar then msLoop pats path (px + 1) tx (some (px, tx)) fuel
          else if matchSegment sg.raw (path.getD tx []) then
            msLoop pats path (px + 1) (tx + 1) star fuel
          else
            match star with
            | some (sp, st) => msLoop pats path (sp + 1) (st + 1) (some (sp, st + 1)) fuel
            | none => some false
        | none =>
          match star with
          | some (sp, st) => msLoop pats path (sp + 1) (st + 1) (some (sp, st + 1)) fuel
          | none => some false
      else
        some ((pats.drop px).all (·.doubleStar)) := rfl

/-- Master theorem for `msLoop`: with the stated fuel the loop returns a
result, and that result agrees with the declarative semantics. -/
theorem msLoop_main (pats : List Seg) (path : List (List Nat)) :
    ∀ (fuel px tx : Nat) (star : Option (Nat × Nat)),
      MsInv pats path px tx star →
      loopMu path.length pats.length tx px star < fuel →
      ∃ b, msLoop pats path px tx star fuel = some b ∧
        (b = true ↔ MsGoal pats path px tx star) := by
  intro fuel
  induction fuel with
  | zero =>
    intro px tx star _ hMu
    exact absurd hMu (Nat.not_lt_zero _)
  | succ fuel ih =>
    intro px tx star hInv hMu
    rw [msLoop_succ]
    by_cases htx : tx < path.length
    · rw [if_pos htx]
      cases hpx : pats.get? px with
      | some sg =>
        dsimp only
        have hpxlt : px < pats.length := get?_some_lt hpx
        cases hds : sg.doubleStar with
        | true =>
          rw [if_pos rfl]
          have hInv' : MsInv pats path (px + 1) tx (some (px, tx)) := by
            refine ⟨⟨sg, hpx, hds⟩, [], (List.nil_append _).symm, starFreeL_nil, ?_, ?_, ?_⟩
            · rw [List.length_nil, List.take_zero, declG_nil]
              rfl
            · simp
            · omega
          have hMu' : loopMu path.length pats.length tx (px + 1) (some (px, tx)) < fuel := by
            have hdec : loopMu path.length pats.length tx (px + 1) (some (px, tx)) <
                loopMu path.length pats.length tx px star := by
              unfold loopMu
              apply mixed_lt (by omega) (by omega)
              cases star with
              | none =>
                simp only [encStar, true_and, and_true]
                omega
              | some spst =>
                obtain ⟨sp, st⟩ := spst
                obtain ⟨_, A, _, _, _, htxA, _⟩ := hInv
                simp only [encStar, true_and, and_true]
                omega
            omega
          obtain ⟨b, hb, hiff⟩ := ih (px + 1) tx (some (px, tx)) hInv' hMu'
          refine ⟨b, hb, ?_⟩
          rw [hiff]
          cases star with
          | none =>
            show (∃ k, tx ≤ k ∧ declG ((pats.map segTok).drop (px + 1)) (path.drop k) = true) ↔
              declG ((pats.map segTok).drop px) (path.drop tx) = true
            rw [mapDrop_cons hpx, segTok_star hds]
            exact (goal_star_skip _ path tx).symm
          | some spst =>
            obtain ⟨sp, st⟩ := spst
            obtain ⟨hsp, A, hsplit, hA, hw, htxA, hle⟩ := hInv
            show (∃ k, tx ≤ k ∧ declG ((pats.map segTok).drop (px + 1)) (path.drop k) = true) ↔
              (∃ k, st ≤ k ∧ declG ((pats.map segTok).drop (sp + 1)) (path.drop k) = true)
            rw [hsplit, mapDrop_cons hpx, segTok_star hds]
            exact (goal_star_some hA hw htxA).symm
        | false =>
          rw [if_neg Bool.false_ne_true]
          cases hm : matchSegment sg.raw (path.getD tx []) with
          | true =>
            rw [if_pos rfl]
            have hInv' : MsInv pats path (px + 1) (tx + 1) star := by
              cases star with
              | none => exact htx
              | some spst =>
                obtain ⟨sp, st⟩ := spst
                obtain ⟨hsp, A, hsplit, hA, hw, htxA, hle⟩ := hInv
                refine ⟨hsp, A ++ [.item (fun t => matchSegment sg.raw t)], ?_, ?_, ?_, ?_, ?_⟩
                · rw [hsplit, mapDrop_cons hpx, segTok_item (by rw [hds]; exact Bool.false_ne_true)]
                  rw [List.append_assoc]
                  rfl
                · exact starFreeL_append_item hA _
                · have := window_extend hA hw htxA htx (fun t => matchSegment sg.raw t) [] hm
                  rw [List.length_append, List.length_cons, List.length_nil]
                  exact this
                · rw [List.length_append, List.length_cons, List.length_nil]
                  omega
                · omega
            have hMu' : loopMu path.length pats.length (tx + 1) (px + 1) star < fuel := by
              have hdec : loopMu path.length pats.length (tx + 1) (px + 1) star <
                  loopMu path.length pats.length tx px star := by
                unfold loopMu
                apply mixed_lt (by omega) (by omega)
                exact Or.inr ⟨rfl, Or.inl (by omega)⟩
              omega
            obtain ⟨b, hb, hiff⟩ := ih (px + 1) (tx + 1) star hInv' hMu'
            refine ⟨b, hb, ?_⟩
            rw [hiff]
            cases star with
            | none =>
              show declG ((pats.map segTok).drop (px + 1)) (path.drop (tx + 1)) = true ↔
                declG ((pats.map segTok).drop px) (path.drop tx) = true
              rw [mapDrop_cons hpx, segTok_item (by rw [hds]; exact Bool.false_ne_true)]
              rw [drop_cons_getD path tx [] htx, declG_item_cons, hm, Bool.true_and]
            | some spst =>
              obtain ⟨sp, st⟩ := spst
              exact Iff.rfl
          | false =>
            rw [if_neg Bool.false_ne_true]
            cases star with
            | none =>
              dsimp only
              refine ⟨false, rfl, ?_⟩
              constructor
              · intro h; cases h
              · intro hgoal
                exfalso
                rw [show (MsGoal pats path px tx none) =
                     (declG ((pats.map segTok).drop px) (path.drop tx) = true) from rfl] at hgoal
                rw [mapDrop_cons hpx, segTok_item (by rw [hds]; exact Bool.false_ne_true),
                  drop_cons_getD path tx [] htx, declG_item_cons, hm, Bool.false_and] at hgoal
                cases hgoal
            | some spst =>
              obtain ⟨sp, st⟩ := spst
              dsimp only
              obtain ⟨hsp, A, hsplit, hA, hw, htxA, hle⟩ := hInv
              have hInv' : MsInv pats path (sp + 1) (st + 1) (some (sp, st + 1)) := by
                refine ⟨hsp, [], (List.nil_append _).symm, starFreeL_nil, ?_, ?_, ?_⟩
                · rw [List.length_nil, List.take_zero, declG_nil]
                  rfl
                · simp
                · omega
              have hMu' : loopMu path.length pats.length (st + 1) (sp + 1) (some (sp, st + 1)) <
                  fuel := by
                have hdec : loopMu path.length pats.length (st + 1) (sp + 1)
                    (some (sp, st + 1)) < loopMu path.length pats.length tx px
                    (some (sp, st)) := by
                  unfold loopMu
                  apply mixed_lt (by omega) (by omega)
                  simp only [encStar, true_and, and_true]
                  omega
                omega
              obtain ⟨b, hb, hiff⟩ := ih (sp + 1) (st + 1) (some (sp, st + 1)) hInv' hMu'
              refine ⟨b, hb, ?_⟩
              rw [hiff]
              have hfail : ¬ declG (A ++ .item (fun t => matchSegment sg.raw t) ::
                  (pats.map segTok).drop (px + 1)) (path.drop st) = true :=
                fail_at_st_item hA hw htxA htx (d := []) hm
              have hsplit' : (pats.map segTok).drop (sp + 1) =
                  A ++ .item (fun t => matchSegment sg.raw t) ::
                    (pats.map segTok).drop (px + 1) := by
                rw [hsplit, mapDrop_cons hpx, segTok_item (by rw [hds]; exact Bool.false_ne_true)]
              show (∃ k, st + 1 ≤ k ∧
                  declG ((pats.map segTok).drop (sp + 1)) (path.drop k) = true) ↔
                (∃ k, st ≤ k ∧ declG ((pats.map segTok).drop (sp + 1)) (path.drop k) = true)
              constructor
              · rintro ⟨k, hk, h⟩
                exact ⟨k, by omega, h⟩
              · rintro ⟨k, hk, h⟩
                rcases Nat.eq_or_lt_of_le hk with rfl | hk'
                · rw [hsplit'] at h
                  exact absurd h hfail
                · exact ⟨k, by omega, h⟩
      | none =>
        dsimp only
        have hlen : pats.length ≤ px := List.get?_eq_none.1 hpx
        have hTnil : (pats.map segTok).drop px = [] :=
          drop_of_ge_length _ _ (by rw [List.length_map]; omega)
        cases star with
        | none =>
          dsimp only
          refine ⟨false, rfl, ?_⟩
          constructor
          · intro h; cases h
          · intro hgoal
            exfalso
            rw [show (MsGoal pats path px tx none) =
                 (declG ((pats.map segTok).drop px) (path.drop tx) = true) from rfl] at hgoal
            rw [hTnil, declG_nil, drop_cons_getD path tx [] htx] at hgoal
            cases hgoal
        | some spst =>
          obtain ⟨sp, st⟩ := spst
          dsimp only
          obtain ⟨hsp, A, hsplit, hA, hw, htxA, hle⟩ := hInv
          have hInv' : MsInv pats path (sp + 1) (st + 1) (some (sp, st + 1)) := by
            refine ⟨hsp, [], (List.nil_append _).symm, starFreeL_nil, ?_, ?_, ?_⟩
            · rw [List.length_nil, List.take_zero, declG_nil]
              rfl
            · simp
            · omega
          have hMu' : loopMu path.length pats.length (st + 1) (sp + 1) (some (sp, st + 1)) <
              fuel := by
            have hdec : loopMu path.length pats.length (st + 1) (sp + 1) (some (sp, st + 1)) <
                loopMu path.length pats.length tx px (some (sp, st)) := by
              unfold loopMu
              apply mixed_lt (by omega) (by omega)
              simp only [encStar, true_and, and_true]
              omega
            omega
          obtain ⟨b, hb, hiff⟩ := ih (sp + 1) (st + 1) (some (sp, st + 1)) hInv' hMu'
          refine ⟨b, hb, ?_⟩
          rw [hiff]
          have hfail : ¬ declG (A ++ []) (path.drop st) = true :=
            fail_at_st_nil hA hw htxA htx
          have hsplit' : (pats.map segTok).drop (sp + 1) = A ++ [] := by
            rw [hsplit, hTnil]
          show (∃ k, st + 1 ≤ k ∧
              declG ((pats.map segTok).drop (sp + 1)) (path.drop k) = true) ↔
            (∃ k, st ≤ k ∧ declG ((pats.map segTok).drop (sp + 1)) (path.drop k) = true)
          constructor
          · rintro ⟨k, hk, h⟩
            exact ⟨k, by omega, h⟩
          · rintro ⟨k, hk, h⟩
            rcases Nat.eq_or_lt_of_le hk with rfl | hk'
            · rw [hsplit'] at h
              exact absurd h hfail
            · exact ⟨k, by omega, h⟩
    · rw [if_neg htx]
      refine ⟨(pats.drop px).all (·.doubleStar), rfl, ?_⟩
      have hall : ((pats.map segTok).drop px).all isStarTok = (pats.drop px).all (·.doubleStar) := by
        rw [mapDrop, allStar_map]
      cases star with
      | none =>
        have hnil : path.drop tx = [] := drop_of_ge_length _ _ (by omega)
        show (pats.drop px).all (·.doubleStar) = true ↔
          declG ((pats.map segTok).drop px) (path.drop tx) = true
        rw [hnil, declG_nil_input, hall]
      | some spst =>
        obtain ⟨sp, st⟩ := spst
        obtain ⟨hsp, A, hsplit, hA, hw, htxA, hle⟩ := hInv
        have hend : tx = path.length := by omega
        show (pats.drop px).all (·.doubleStar) = true ↔
          (∃ k, st ≤ k ∧ declG ((pats.map segTok).drop (sp + 1)) (path.drop k) = true)
        rw [hsplit]
        rw [← hall]
        exact (goal_term_some hA hw htxA hend).symm


/-- The fuel bound of `matchSegments` is sufficient. -/
theorem msLoop_total (pats : List Seg) (path : List (List Nat)) :
    ∃ b, msLoop pats path 0 0 none (msFuel pats path) = some b ∧
      (b = true ↔ declSegs pats path = true) := by
  have hmu : loopMu path.length pats.length 0 0 none < msFuel pats path := by
    unfold loopMu msFuel encStar
    simp only [Nat.sub_zero]
    have h2 : path.length + 2 = path.length + 1 + 1 := by omega
    rw [h2]
    exact mixed_bound (Nat.le_refl _) (by omega) (by omega)
  obtain ⟨b, hb, hiff⟩ := msLoop_main pats path (msFuel pats path) 0 0 none
    (Nat.zero_le _) hmu
  exact ⟨b, hb, hiff⟩

/-- `matchSegments` agrees with the declarative segment-matching semantics. -/
theorem matchSegments_eq_declSegs (patSegs : List Seg) (pathSegs : List (List Nat)) :
    matchSegments patSegs pathSegs = declSegs patSegs pathSegs := by
  obtain ⟨b, hb, hiff⟩ := msLoop_total patSegs pathSegs
  unfold matchSegments
  rw [hb]
  cases b with
  | true => exact (hiff.1 rfl).symm
  | false =>
    cases hd : declSegs patSegs pathSegs with
    | true => exact absurd (hiff.2 hd) (by simp)
    | false => rfl

/-- `msLoop` never exhausts the `msFuel` bound. -/
theorem msLoop_isSome (pats : List Seg) (path : List (List Nat)) :
    (msLoop pats path 0 0 none (msFuel pats path)).isSome = true := by
  obtain ⟨b, hb, _⟩ := msLoop_total pats path
  rw [hb]
  rfl


/-! ### Tokenizer step equations -/

theorem tokenizeFrom_stop {glob : List Nat} {gx : Nat} (h : glob.length ≤ gx) :
    tokenizeFrom glob gx = [] := by
  rw [tokenizeFrom]
  rw [dif_neg (by omega)]

theorem tokenizeFrom_escape {glob : List Nat} {gx : Nat} (h : gx < glob.length)
    (hc : glob.getD gx 0 = bBSL) (h2 : gx + 1 < glob.length) :
    tokenizeFrom glob gx =
      .item (fun b => decide (b = glob.getD (gx + 1) 0)) :: tokenizeFrom glob (gx + 2) := by
  rw [tokenizeFrom]
  rw [dif_pos h, if_pos ⟨hc, h2⟩]

theorem tokenizeFrom_qm {glob : List Nat} {gx : Nat} (h : gx < glob.length)
    (hne : ¬ (glob.getD gx 0 = bBSL ∧ gx + 1 < glob.length)) (hq : glob.getD gx 0 = bQM) :
    tokenizeFrom glob gx = .item (fun _ => true) :: tokenizeFrom glob (gx + 1) := by
  rw [tokenizeFrom]
  rw [dif_pos h, if_neg hne, if_pos hq]

theorem tokenizeFrom_star {glob : List Nat} {gx : Nat} (h : gx < glob.length)
    (hne : ¬ (glob.getD gx 0 = bBSL ∧ gx + 1 < glob.length))
    (hnq : ¬ glob.getD gx 0 = bQM) (hs : glob.getD gx 0 = bSTAR) :
    tokenizeFrom glob gx = .star :: tokenizeFrom glob (gx + 1) := by
  rw [tokenizeFrom]
  rw [dif_pos h, if_neg hne, if_neg hnq, if_pos hs]

theorem tokenizeFrom_bracket_ok {glob : List Nat} {gx : Nat} (h : gx < glob.length)
    (hne : ¬ (glob.getD gx 0 = bBSL ∧ gx + 1 < glob.length))
    (hnq : ¬ glob.getD gx 0 = bQM) (hns : ¬ glob.getD gx 0 = bSTAR)
    (hl : glob.getD gx 0 = bLBR) (hB : (matchBracket glob gx 0).2.2 = true) :
    tokenizeFrom glob gx = .item (fun b => (matchBracket glob gx b).1) ::
      tokenizeFrom glob (matchBracket glob gx 0).2.1 := by
  rw [tokenizeFrom]
  rw [dif_pos h, if_neg hne, if_neg hnq, if_neg hns, if_pos hl, dif_pos hB]

theorem tokenizeFrom_bracket_bad {glob : List Nat} {gx : Nat} (h : gx < glob.length)
    (hne : ¬ (glob.getD gx 0 = bBSL ∧ gx + 1 < glob.length))
    (hnq : ¬ glob.getD gx 0 = bQM) (hns : ¬ glob.getD gx 0 = bSTAR)
    (hl : glob.getD gx 0 = bLBR) (hB : ¬ (matchBracket glob gx 0).2.2 = true) :
    tokenizeFrom glob gx = .item (fun b => decide (b = bLBR)) :: tokenizeFrom glob (gx + 1) := by
  rw [tokenizeFrom]
  rw [dif_pos h, if_neg hne, if_neg hnq, if_neg hns, if_pos hl, dif_neg hB]

theorem tokenizeFrom_lit {glob : List Nat} {gx : Nat} (h : gx < glob.length)
    (hne : ¬ (glob.getD gx 0 = bBSL ∧ gx + 1 < glob.length))
    (hnq : ¬ glob.getD gx 0 = bQM) (hns : ¬ glob.getD gx 0 = bSTAR)
    (hnl : ¬ glob.getD gx 0 = bLBR) :
    tokenizeFrom glob gx =
      .item (fun b => decide (b = glob.getD gx 0)) :: tokenizeFrom glob (gx + 1) := by
  rw [tokenizeFrom]
  rw [dif_pos h, if_neg hne, if_neg hnq, if_neg hns, if_neg hnl]

/-- Every non-`'*'` byte starts a one-element (`item`) token. -/
theorem tokenizeFrom_head_item {glob : List Nat} {gx : Nat} (h : gx < glob.length)
    (hns : ¬ glob.getD gx 0 = bSTAR) :
    ∃ p rest, tokenizeFrom glob gx = .item p :: rest := by
  by_cases hesc : glob.getD gx 0 = bBSL ∧ gx + 1 < glob.length
  · exact ⟨_, _, tokenizeFrom_escape h hesc.1 hesc.2⟩
  · by_cases hq : glob.getD gx 0 = bQM
    · exact ⟨_, _, tokenizeFrom_qm h hesc hq⟩
    · by_cases hl : glob.getD gx 0 = bLBR
      · by_cases hB : (matchBracket glob gx 0).2.2 = true
        · exact ⟨_, _, tokenizeFrom_bracket_ok h hesc hq hns hl hB⟩
        · exact ⟨_, _, tokenizeFrom_bracket_bad h hesc hq hns hl hB⟩
      · exact ⟨_, _, tokenizeFrom_lit h hesc hq hns hl⟩

/-- The trailing-star skip of `matchSegment` decides exactly whether the
remaining tokens are all stars. -/
theorem skipStarsF_spec (glob : List Nat) :
    ∀ (fuel gx : Nat), glob.length ≤ gx + fuel → gx ≤ glob.length →
      ((skipStarsF glob fuel gx = glob.length) ↔ (tokenizeFrom glob gx).all isStarTok = true) := by
  intro fuel
  induction fuel with
  | zero =>
    intro gx hf hle
    have hg : gx = glob.length := by omega
    rw [show skipStarsF glob 0 gx = gx from rfl, tokenizeFrom_stop (by omega)]
    simp [hg]
  | succ fuel ih =>
    intro gx hf hle
    by_cases hgx : gx < glob.length
    · by_cases hst : glob.getD gx 0 = bSTAR
      · rw [show skipStarsF glob (fuel + 1) gx = skipStarsF glob fuel (gx + 1) from by
          rw [skipStarsF]; rw [if_pos ⟨hgx, hst⟩]]
        rw [tokenizeFrom_star hgx (by rintro ⟨h92, _⟩; rw [hst] at h92; cases h92) (by
          intro hq; rw [hst] at hq; cases hq) hst]
        rw [List.all_cons]
        have : isStarTok (MTok.star : MTok Nat) = true := rfl
        rw [this, Bool.true_and]
        exact ih (gx + 1) (by omega) (by omega)
      · rw [show skipStarsF glob (fuel + 1) gx = gx from by
          rw [skipStarsF]; rw [if_neg (by rintro ⟨_, hs⟩; exact hst hs)]]
        constructor
        · intro h; exact absurd h (by omega)
        · intro h
          obtain ⟨p, rest, hpr⟩ := tokenizeFrom_head_item hgx hst
          rw [hpr, List.all_cons] at h
          have : isStarTok (MTok.item p) = false := rfl
          rw [this, Bool.false_and] at h
          cases h
    · have hg : gx = glob.length := by omega
      rw [show skipStarsF glob (fuel + 1) gx = gx from by
        rw [skipStarsF]; rw [if_neg (by rintro ⟨hlt, _⟩; omega)]]
      rw [tokenizeFrom_stop (by omega)]
      simp [hg]

theorem skipStars_spec {glob : List Nat} {gx : Nat} (hle : gx ≤ glob.length) :
    (skipStars glob gx = glob.length) ↔ (tokenizeFrom glob gx).all isStarTok = true :=
  skipStarsF_spec glob (glob.length + 1) gx (by omega) hle

/-- Discarding the refuted backtrack start. -/
theorem goal_back_peel {α : Type} {L : List (MTok α)} {xs : List α} {st : Nat}
    (hfail : ¬ declG L (xs.drop st) = true) :
    (∃ k, st + 1 ≤ k ∧ declG L (xs.drop k) = true) ↔
    (∃ k, st ≤ k ∧ declG L (xs.drop k) = true) := by
  constructor
  · rintro ⟨k, hk, h⟩
    exact ⟨k, by omega, h⟩
  · rintro ⟨k, hk, h⟩
    rcases Nat.eq_or_lt_of_le hk with rfl | hk'
    · exact absurd h hfail
    · exact ⟨k, by omega, h⟩

/-! ### Correctness and termination of the character-level loop -/

/-- Loop invariant of `csLoop` (byte-level analogue of `MsInv`). -/
def CsInv (glob text : List Nat) (gx tx : Nat) : Option (Nat × Nat) → Prop
  | none => gx ≤ glob.length ∧ tx ≤ text.length
  | some (sg, st) =>
      glob.getD sg 0 = bSTAR ∧ sg < glob.length ∧ gx ≤ glob.length ∧
      ∃ A, tokenizeFrom glob (sg + 1) = A ++ tokenizeFrom glob gx ∧
        starFreeL A ∧ declG A ((text.drop st).take A.length) = true ∧
        tx = st + A.length ∧ tx ≤ text.length

/-- Semantic meaning of a `csLoop` state (byte-level analogue of `MsGoal`). -/
def CsGoal (glob text : List Nat) (gx tx : Nat) : Option (Nat × Nat) → Prop
  | none => declG (tokenizeFrom glob gx) (text.drop tx) = true
  | some (sg, st) =>
      ∃ k, st ≤ k ∧ declG (tokenizeFrom glob (sg + 1)) (text.drop k) = true

theorem csInv_enc {glob text : List Nat} {gx tx : Nat} {star : Option (Nat × Nat)}
    (hInv : CsInv glob text gx tx star) : encStar star ≤ tx + 1 := by
  cases star with
  | none => exact Nat.zero_le _
  | some spst =>
    obtain ⟨sg, st⟩ := spst
    obtain ⟨_, _, _, A, _, _, _, htxA, _⟩ := hInv
    show st + 1 ≤ tx + 1
    omega

/-! Measure steps shared by the loop transitions. -/

theorem mu_consume (S P tx px px' : Nat) (star : Option (Nat × Nat)) (htx : tx < S) :
    loopMu S P (tx + 1) px' star < loopMu S P tx px star := by
  unfold loopMu
  apply mixed_lt (by omega) (by omega)
  exact Or.inr ⟨rfl, Or.inl (by omega)⟩

theorem mu_backtrack (S P tx px px' sp st : Nat) (hst : st ≤ tx) (htx : tx < S) :
    loopMu S P (st + 1) px' (some (sp, st + 1)) < loopMu S P tx px (some (sp, st)) := by
  unfold loopMu
  apply mixed_lt (by omega) (by omega)
  simp only [encStar]
  omega

theorem mu_newstar (S P tx px : Nat) (star : Option (Nat × Nat))
    (henc : encStar star ≤ tx + 1) (hpx : px < P) (htx : tx < S) :
    loopMu S P tx (px + 1) (some (px, tx)) < loopMu S P tx px star := by
  unfold loopMu
  apply mixed_lt (by omega) (by omega)
  have h1 : encStar (some (px, tx)) = tx + 1 := rfl
  rw [h1]
  omega

/-! Transition lemmas for `csLoop`. -/

theorem consume_inv {glob text : List Nat} {gx tx gx' : Nat} {star : Option (Nat × Nat)}
    {p : Nat → Bool} (hInv : CsInv glob text gx tx star)
    (htok : tokenizeFrom glob gx = .item p :: tokenizeFrom glob gx')
    (hp : p (text.getD tx 0) = true) (htx : tx < text.length) (hgle : gx' ≤ glob.length) :
    CsInv glob text gx' (tx + 1) star := by
  cases star with
  | none => exact ⟨hgle, by omega⟩
  | some spst =>
    obtain ⟨sg, st⟩ := spst
    obtain ⟨hsg42, hsglt, hgxle, A, hsplit, hA, hw, htxA, hle⟩ := hInv
    refine ⟨hsg42, hsglt, hgle, A ++ [.item p], ?_, starFreeL_append_item hA _, ?_, ?_, ?_⟩
    · rw [hsplit, htok, List.append_assoc]
      rfl
    · have := window_extend hA hw htxA htx p 0 hp
      rw [List.length_append, List.length_cons, List.length_nil]
      exact this
    · rw [List.length_append, List.length_cons, List.length_nil]
      omega
    · omega

theorem consume_goal {glob text : List Nat} {gx tx gx' : Nat} {star : Option (Nat × Nat)}
    {p : Nat → Bool}
    (htok : tokenizeFrom glob gx = .item p :: tokenizeFrom glob gx')
    (hp : p (text.getD tx 0) = true) (htx : tx < text.length) :
    CsGoal glob text gx' (tx + 1) star ↔ CsGoal glob text gx tx star := by
  cases star with
  | none =>
    show declG (tokenizeFrom glob gx') (text.drop (tx + 1)) = true ↔
      declG (tokenizeFrom glob gx) (text.drop tx) = true
    rw [htok, drop_cons_getD text tx 0 htx, declG_item_cons, hp, Bool.true_and]
  | some spst =>
    obtain ⟨sg, st⟩ := spst
    exact Iff.rfl

theorem back_inv {glob text : List Nat} {gx tx sg st : Nat}
    (hInv : CsInv glob text gx tx (some (sg, st))) (htx : tx < text.length) :
    CsInv glob text (sg + 1) (st + 1) (some (sg, st + 1)) := by
  obtain ⟨hsg42, hsglt, hgxle, A, hsplit, hA, hw, htxA, hle⟩ := hInv
  refine ⟨hsg42, hsglt, by omega, [], (List.nil_append _).symm, starFreeL_nil, ?_, by simp, by omega⟩
  rw [List.length_nil, List.take_zero, declG_nil]
  rfl

theorem head_fail {glob text : List Nat} {gx tx sg st : Nat} {p : Nat → Bool}
    {rest : List (MTok Nat)} (hInv : CsInv glob text gx tx (some (sg, st)))
    (htok : tokenizeFrom glob gx = .item p :: rest)
    (hp : p (text.getD tx 0) = false) (htx : tx < text.length) :
    ¬ declG (tokenizeFrom glob (sg + 1)) (text.drop st) = true := by
  obtain ⟨_, _, _, A, hsplit, hA, hw, htxA, _⟩ := hInv
  rw [hsplit, htok]
  exact fail_at_st_item hA hw htxA htx hp

theorem nil_fail {glob text : List Nat} {gx tx sg st : Nat}
    (hInv : CsInv glob text gx tx (some (sg, st)))
    (htok : tokenizeFrom glob gx = []) (htx : tx < text.length) :
    ¬ declG (tokenizeFrom glob (sg + 1)) (text.drop st) = true := by
  obtain ⟨_, _, _, A, hsplit, hA, hw, htxA, _⟩ := hInv
  rw [hsplit, htok]
  exact fail_at_st_nil hA hw htxA htx

theorem back_goal {glob text : List Nat} {gx tx sg st : Nat}
    (hfail : ¬ declG (tokenizeFrom glob (sg + 1)) (text.drop st) = true) :
    CsGoal glob text (sg + 1) (st + 1) (some (sg, st + 1)) ↔
    CsGoal glob text gx tx (some (sg, st)) := by
  show (∃ k, st + 1 ≤ k ∧ declG (tokenizeFrom glob (sg + 1)) (text.drop k) = true) ↔
    (∃ k, st ≤ k ∧ declG (tokenizeFrom glob (sg + 1)) (text.drop k) = true)
  exact goal_back_peel hfail

theorem newstar_inv {glob text : List Nat} {gx tx : Nat}
    (hstar : glob.getD gx 0 = bSTAR) (hgx : gx < glob.length) (htx : tx < text.length) :
    CsInv glob text (gx + 1) tx (some (gx, tx)) := by
  refine ⟨hstar, hgx, by omega, [], (List.nil_append _).symm, starFreeL_nil, ?_, by simp,
    by omega⟩
  rw [List.length_nil, List.take_zero, declG_nil]
  rfl

theorem newstar_goal {glob text : List Nat} {gx tx : Nat} {star : Option (Nat × Nat)}
    (hInv : CsInv glob text gx tx star)
    (htok : tokenizeFrom glob gx = .star :: tokenizeFrom glob (gx + 1)) :
    CsGoal glob text (gx + 1) tx (some (gx, tx)) ↔ CsGoal glob text gx tx star := by
  cases star with
  | none =>
    show (∃ k, tx ≤ k ∧ declG (tokenizeFrom glob (gx + 1)) (text.drop k) = true) ↔
      declG (tokenizeFrom glob gx) (text.drop tx) = true
    rw [htok]
    exact (goal_star_skip _ text tx).symm
  | some spst =>
    obtain ⟨sg, st⟩ := spst
    obtain ⟨hsg42, hsglt, hgxle, A, hsplit, hA, hw, htxA, hle⟩ := hInv
    show (∃ k, tx ≤ k ∧ declG (tokenizeFrom glob (gx + 1)) (text.drop k) = true) ↔
      (∃ k, st ≤ k ∧ declG (tokenizeFrom glob (sg + 1)) (text.drop k) = true)
    rw [hsplit, htok]
    exact (goal_star_some hA hw htxA).symm

theorem term_goal {glob text : List Nat} {gx tx : Nat} {star : Option (Nat × Nat)}
    (hInv : CsInv glob text gx tx star) (htx : ¬ tx < text.length) :
    decide (skipStars glob gx = glob.length) = true ↔ CsGoal glob text gx tx star := by
  cases star with
  | none =>
    obtain ⟨hgxle, htxle⟩ := hInv
    show decide (skipStars glob gx = glob.length) = true ↔
      declG (tokenizeFrom glob gx) (text.drop tx) = true
    rw [decide_eq_true_iff, skipStars_spec hgxle]
    have hnil : text.drop tx = [] := drop_of_ge_length _ _ (by omega)
    rw [hnil, declG_nil_input]
  | some spst =>
    obtain ⟨sg, st⟩ := spst
    obtain ⟨hsg42, hsglt, hgxle, A, hsplit, hA, hw, htxA, hle⟩ := hInv
    have hend : tx = text.length := by omega
    show decide (skipStars glob gx = glob.length) = true ↔
      (∃ k, st ≤ k ∧ declG (tokenizeFrom glob (sg + 1)) (text.drop k) = true)
    rw [decide_eq_true_iff, skipStars_spec hgxle, hsplit]
    exact (goal_term_some hA hw htxA hend).symm


/-- One-step unfolding of `csLoop`. -/
theorem csLoop_succ (glob text : List Nat) (gx tx : Nat) (star : Option (Nat × Nat))
    (fuel : Nat) :
    csLoop glob text gx tx star (fuel + 1) =
      if tx < text.length then
        if gx < glob.length then
          if glob.getD gx 0 = bBSL ∧ gx + 1 < glob.length then
            if text.getD tx 0 = glob.getD (gx + 1) 0 then
              csLoop glob text (gx + 2) (tx + 1) star fuel
            else
              match star with
              | some (sg, st) => csLoop glob text (sg + 1) (st + 1) (some (sg, st + 1)) fuel
              | none => some false
          else if glob.getD gx 0 = bQM then csLoop glob text (gx + 1) (tx + 1) star fuel
          else if glob.getD gx 0 = bSTAR then csLoop glob text (gx + 1) tx (some (gx, tx)) fuel
          else if glob.getD gx 0 = bLBR then
            if (matchBracket glob gx (text.getD tx 0)).2.2 ∧
               (matchBracket glob gx (text.getD tx 0)).1 then
              csLoop glob text (matchBracket glob gx (text.getD tx 0)).2.1 (tx + 1) star fuel
            else if ¬ (matchBracket glob gx (text.getD tx 0)).2.2 ∧ text.getD tx 0 = bLBR then
              csLoop glob text (gx + 1) (tx + 1) star fuel
            else
              match star with
              | some (sg, st) => csLoop glob text (sg + 1) (st + 1) (some (sg, st + 1)) fuel
              | none => some false
          else if text.getD tx 0 = glob.getD gx 0 then csLoop glob text (gx + 1) (tx + 1) star fuel
          else
            match star with
            | some (sg, st) => csLoop glob text (sg + 1) (st + 1) (some (sg, st + 1)) fuel
            | none => some false
        else
          match star with
          | some (sg, st) => csLoop glob text (sg + 1) (st + 1) (some (sg, st + 1)) fuel
          | none => some false
      else
        some (decide (skipStars glob gx = glob.length)) := rfl

/-- Master theorem for `csLoop`: with the stated fuel the loop returns a
result, and that result agrees with the declarative token semantics. -/
theorem csLoop_main (glob text : List Nat) :
    ∀ (fuel gx tx : Nat) (star : Option (Nat × Nat)),
      CsInv glob text gx tx star →
      loopMu text.length glob.length tx gx star < fuel →
      ∃ b, csLoop glob text gx tx star fuel = some b ∧
        (b = true ↔ CsGoal glob text gx tx star) := by
  intro fuel
  induction fuel with
  | zero =>
    intro gx tx star _ hMu
    exact absurd hMu (Nat.not_lt_zero _)
  | succ fuel ih =>
    intro gx tx star hInv hMu
    rw [csLoop_succ]
    by_cases htx : tx < text.length
    · rw [if_pos htx]
      by_cases hgx : gx < glob.length
      · rw [if_pos hgx]
        by_cases hesc : glob.getD gx 0 = bBSL ∧ gx + 1 < glob.length
        · rw [if_pos hesc]
          have htok := tokenizeFrom_escape hgx hesc.1 hesc.2
          by_cases hcc : text.getD tx 0 = glob.getD (gx + 1) 0
          · rw [if_pos hcc]
            have hp : decide (text.getD tx 0 = glob.getD (gx + 1) 0) = true :=
              decide_eq_true hcc
            obtain ⟨b, hb, hiff⟩ := ih (gx + 2) (tx + 1) star
              (consume_inv hInv htok hp htx (by omega))
              (by have := mu_consume text.length glob.length tx gx (gx + 2) star htx; omega)
            exact ⟨b, hb, hiff.trans (consume_goal htok hp htx)⟩
          · have hp : decide (text.getD tx 0 = glob.getD (gx + 1) 0) = false :=
              decide_eq_false hcc
            rw [if_neg hcc]
            cases star with
            | none =>
              refine ⟨false, rfl, ?_⟩
              constructor
              · intro h; cases h
              · intro hgoal
                exfalso
                rw [show (CsGoal glob text gx tx none) =
                    (declG (tokenizeFrom glob gx) (text.drop tx) = true) from rfl] at hgoal
                rw [htok, drop_cons_getD text tx 0 htx, declG_item_cons, hp,
                  Bool.false_and] at hgoal
                cases hgoal
            | some spst =>
              obtain ⟨sg, st⟩ := spst
              have hst : st ≤ tx := by
                obtain ⟨_, _, _, A, _, _, _, htxA, _⟩ := hInv
                omega
              obtain ⟨b, hb, hiff⟩ := ih (sg + 1) (st + 1) (some (sg, st + 1))
                (back_inv hInv htx)
                (by have := mu_backtrack text.length glob.length tx gx (sg + 1) sg st hst htx
                    omega)
              exact ⟨b, hb, hiff.trans (back_goal (head_fail hInv htok hp htx))⟩
        · rw [if_neg hesc]
          by_cases hq : glob.getD gx 0 = bQM
          · rw [if_pos hq]
            have htok := tokenizeFrom_qm hgx hesc hq
            have hp : (fun _ : Nat => true) (text.getD tx 0) = true := rfl
            obtain ⟨b, hb, hiff⟩ := ih (gx + 1) (tx + 1) star
              (consume_inv hInv htok hp htx (by omega))
              (by have := mu_consume text.length glob.length tx gx (gx + 1) star htx; omega)
            exact ⟨b, hb, hiff.trans (consume_goal htok hp htx)⟩
          · rw [if_neg hq]
            by_cases hs : glob.getD gx 0 = bSTAR
            · rw [if_pos hs]
              have htok := tokenizeFrom_star hgx hesc hq hs
              obtain ⟨b, hb, hiff⟩ := ih (gx + 1) tx (some (gx, tx))
                (newstar_inv hs hgx htx)
                (by have := mu_newstar text.length glob.length tx gx star (csInv_enc hInv)
                      hgx htx
                    omega)
              exact ⟨b, hb, hiff.trans (newstar_goal hInv htok)⟩
            · rw [if_neg hs]
              by_cases hl : glob.getD gx 0 = bLBR
              · rw [if_pos hl]
                have hsnd : (matchBracket glob gx (text.getD tx 0)).2 =
                    (matchBracket glob gx 0).2 := matchBracket_snd_indep glob gx _ 0
                by_cases hok : (matchBracket glob gx (text.getD tx 0)).2.2 = true ∧
                    (matchBracket glob gx (text.getD tx 0)).1 = true
                · rw [if_pos hok]
                  have hB0 : (matchBracket glob gx 0).2.2 = true := by
                    rw [← hsnd]; exact hok.1
                  have htok := tokenizeFrom_bracket_ok hgx hesc hq hs hl hB0
                  have hpos : (matchBracket glob gx (text.getD tx 0)).2.1 =
                      (matchBracket glob gx 0).2.1 := by rw [hsnd]
                  rw [hpos]
                  have hp : (matchBracket glob gx (text.getD tx 0)).1 = true := hok.2
                  have hbound := matchBracket_ok_bounds glob gx 0 hB0
                  obtain ⟨b, hb, hiff⟩ := ih (matchBracket glob gx 0).2.1 (tx + 1) star
                    (consume_inv hInv htok hp htx hbound.2)
                    (by have := mu_consume text.length glob.length tx gx
                          (matchBracket glob gx 0).2.1 star htx
                        omega)
                  exact ⟨b, hb, hiff.trans (consume_goal htok hp htx)⟩
                · rw [if_neg hok]
                  by_cases hbad : ¬ (matchBracket glob gx (text.getD tx 0)).2.2 = true ∧
                      text.getD tx 0 = bLBR
                  · rw [if_pos hbad]
                    have hB0 : ¬ (matchBracket glob gx 0).2.2 = true := by
                      rw [← hsnd]; exact hbad.1
                    have htok := tokenizeFrom_bracket_bad hgx hesc hq hs hl hB0
                    have hp : decide (text.getD tx 0 = bLBR) = true :=
                      decide_eq_true hbad.2
                    obtain ⟨b, hb, hiff⟩ := ih (gx + 1) (tx + 1) star
                      (consume_inv hInv htok hp htx (by omega))
                      (by have := mu_consume text.length glob.length tx gx (gx + 1) star htx
                          omega)
                    exact ⟨b, hb, hiff.trans (consume_goal htok hp htx)⟩
                  · rw [if_neg hbad]
                    -- failing bracket: either well-formed and not matched, or
                    -- malformed with a byte other than the literal bracket
                    have hfailtok : ∃ p rest,
                        tokenizeFrom glob gx = MTok.item p :: rest ∧
                        p (text.getD tx 0) = false := by
                      by_cases hB0 : (matchBracket glob gx 0).2.2 = true
                      · refine ⟨_, _, tokenizeFrom_bracket_ok hgx hesc hq hs hl hB0, ?_⟩
                        have hokc : (matchBracket glob gx (text.getD tx 0)).2.2 = true := by
                          rw [hsnd]; exact hB0
                        cases hm : (matchBracket glob gx (text.getD tx 0)).1 with
                        | true => exact absurd ⟨hokc, hm⟩ hok
                        | false => rfl
                      · refine ⟨_, _, tokenizeFrom_bracket_bad hgx hesc hq hs hl hB0, ?_⟩
                        apply decide_eq_false
                        intro hcl
                        have hokc : ¬ (matchBracket glob gx (text.getD tx 0)).2.2 = true := by
                          rw [hsnd]; exact hB0
                        exact hbad ⟨hokc, hcl⟩
                    obtain ⟨p, rest, htok, hp⟩ := hfailtok
                    cases star with
                    | none =>
                      refine ⟨false, rfl, ?_⟩
                      constructor
                      · intro h; cases h
                      · intro hgoal
                        exfalso
                        rw [show (CsGoal glob text gx tx none) =
                            (declG (tokenizeFrom glob gx) (text.drop tx) = true) from
                            rfl] at hgoal
                        rw [htok, drop_cons_getD text tx 0 htx, declG_item_cons, hp,
                          Bool.false_and] at hgoal
                        cases hgoal
                    | some spst =>
                      obtain ⟨sg, st⟩ := spst
                      have hst : st ≤ tx := by
                        obtain ⟨_, _, _, A, _, _, _, htxA, _⟩ := hInv
                        omega
                      obtain ⟨b, hb, hiff⟩ := ih (sg + 1) (st + 1) (some (sg, st + 1))
                        (back_inv hInv htx)
                        (by have := mu_backtrack text.length glob.length tx gx (sg + 1) sg st
                              hst htx
                            omega)
                      exact ⟨b, hb, hiff.trans (back_goal (head_fail hInv htok hp htx))⟩
              · rw [if_neg hl]
                have htok := tokenizeFrom_lit hgx hesc hq hs hl
                by_cases hcc : text.getD tx 0 = glob.getD gx 0
                · rw [if_pos hcc]
                  have hp : decide (text.getD tx 0 = glob.getD gx 0) = true :=
                    decide_eq_true hcc
                  obtain ⟨b, hb, hiff⟩ := ih (gx + 1) (tx + 1) star
                    (consume_inv hInv htok hp htx (by omega))
                    (by have := mu_consume text.length glob.length tx gx (gx + 1) star htx
                        omega)
                  exact ⟨b, hb, hiff.trans (consume_goal htok hp htx)⟩
                · rw [if_neg hcc]
                  have hp : decide (text.getD tx 0 = glob.getD gx 0) = false :=
                    decide_eq_false hcc
                  cases star with
                  | none =>
                    refine ⟨false, rfl, ?_⟩
                    constructor
                    · intro h; cases h
                    · intro hgoal
                      exfalso
                      rw [show (CsGoal glob text gx tx none) =
                          (declG (tokenizeFrom glob gx) (text.drop tx) = true) from
                          rfl] at hgoal
                      rw [htok, drop_cons_getD text tx 0 htx, declG_item_cons, hp,
                        Bool.false_and] at hgoal
                      cases hgoal
                  | some spst =>
                    obtain ⟨sg, st⟩ := spst
                    have hst : st ≤ tx := by
                      obtain ⟨_, _, _, A, _, _, _, htxA, _⟩ := hInv
                      omega
                    obtain ⟨b, hb, hiff⟩ := ih (sg + 1) (st + 1) (some (sg, st + 1))
                      (back_inv hInv htx)
                      (by have := mu_backtrack text.length glob.length tx gx (sg + 1) sg st
                            hst htx
                          omega)
                    exact ⟨b, hb, hiff.trans (back_goal (head_fail hInv htok hp htx))⟩
      · rw [if_neg hgx]
        have htok : tokenizeFrom glob gx = [] := tokenizeFrom_stop (by omega)
        cases star with
        | none =>
          dsimp only
          refine ⟨false, rfl, ?_⟩
          constructor
          · intro h; cases h
          · intro hgoal
            exfalso
            rw [show (CsGoal glob text gx tx none) =
                (declG (tokenizeFrom glob gx) (text.drop tx) = true) from rfl] at hgoal
            rw [htok, declG_nil, drop_cons_getD text tx 0 htx] at hgoal
            cases hgoal
        | some spst =>
          obtain ⟨sg, st⟩ := spst
          dsimp only
          have hst : st ≤ tx := by
            obtain ⟨_, _, _, A, _, _, _, htxA, _⟩ := hInv
            omega
          obtain ⟨b, hb, hiff⟩ := ih (sg + 1) (st + 1) (some (sg, st + 1))
            (back_inv hInv htx)
            (by have := mu_backtrack text.length glob.length tx gx (sg + 1) sg st hst htx
                omega)
          exact ⟨b, hb, hiff.trans (back_goal (nil_fail hInv htok htx))⟩
    · rw [if_neg htx]
      exact ⟨_, rfl, term_goal hInv htx⟩


/-- The fuel bound of `matchSegment` is sufficient. -/
theorem csLoop_total (glob text : List Nat) :
    ∃ b, csLoop glob text 0 0 none (csFuel glob text) = some b ∧
      (b = true ↔ declSegment glob text = true) := by
  have hmu : loopMu text.length glob.length 0 0 none < csFuel glob text := by
    unfold loopMu csFuel encStar
    simp only [Nat.sub_zero]
    have h2 : text.length + 2 = text.length + 1 + 1 := by omega
    rw [h2]
    exact mixed_bound (Nat.le_refl _) (by omega) (by omega)
  obtain ⟨b, hb, hiff⟩ := csLoop_main glob text (csFuel glob text) 0 0 none
    ⟨Nat.zero_le _, Nat.zero_le _⟩ hmu
  exact ⟨b, hb, hiff⟩

/-- `matchSegment` agrees with the declarative byte-token semantics. -/
theorem matchSegment_eq_declSegment (glob text : List Nat) :
    matchSegment glob text = declSegment glob text := by
  obtain ⟨b, hb, hiff⟩ := csLoop_total glob text
  unfold matchSegment
  rw [hb]
  cases b with
  | true => exact (hiff.1 rfl).symm
  | false =>
    cases hd : declSegment glob text with
    | true => exact absurd (hiff.2 hd) (by simp)
    | false => rfl

/-- `csLoop` never exhausts the `csFuel` bound. -/
theorem csLoop_isSome (glob text : List Nat) :
    (csLoop glob text 0 0 none (csFuel glob text)).isSome = true := by
  obtain ⟨b, hb, _⟩ := csLoop_total glob text
  rw [hb]
  rfl


/-! ### Last-match-wins characterisation of the matcher -/

/-- Modelled from the claim of P3: the outcome dictated by pure
last-structural-match-wins, i.e. `!negate` of the last-appended pattern
whose structural match (prefix gating and dir-only handling, but not the
literal-suffix fast reject) accepts the path. -/
def specLastStructuralOutcome (pats : List Pattern) (pathSegs : List (List Nat))
    (isDir : Bool) : Bool :=
  match pats.reverse.find? (fun p => matchPattern p pathSegs isDir) with
  | some p => !p.negate
  | none => false

/-- The amended last-match-wins outcome: `!negate` of the last-appended
pattern that both passes the literal-suffix fast reject and structurally
matches the path. -/
def specLastMatchOutcome (pats : List Pattern) (pathSegs : List (List Nat))
    (isDir : Bool) : Bool :=
  match pats.reverse.find? (fun p =>
      !suffixSkip p (pathSegs.getLastD []) && matchPattern p pathSegs isDir) with
  | some p => !p.negate
  | none => false

theorem matchRev_find (pathSegs : List (List Nat)) (lastSeg : List Nat) (isDir : Bool) :
    ∀ l : List Pattern, matchRev pathSegs lastSeg isDir l =
      match l.find? (fun p => !suffixSkip p lastSeg && matchPattern p pathSegs isDir) with
      | some p => !p.negate
      | none => false := by
  intro l
  induction l with
  | nil => rfl
  | cons p rest ih =>
    by_cases hskip : suffixSkip p lastSeg = true
    · rw [show matchRev pathSegs lastSeg isDir (p :: rest) =
          matchRev pathSegs lastSeg isDir rest from by
        rw [matchRev]; rw [if_pos hskip]]
      rw [ih]
      rw [List.find?_cons_of_neg _ (by rw [hskip]; simp)]
    · have hskipf : suffixSkip p lastSeg = false := by
        cases hs : suffixSkip p lastSeg
        · rfl
        · exact absurd hs hskip
      by_cases hm : matchPattern p pathSegs isDir = true
      · rw [show matchRev pathSegs lastSeg isDir (p :: rest) = !p.negate from by
          rw [matchRev]; rw [if_neg hskip, if_pos hm]]
        rw [List.find?_cons_of_pos _ (by rw [hskipf, hm]; rfl)]
      · rw [show matchRev pathSegs lastSeg isDir (p :: rest) =
            matchRev pathSegs lastSeg isDir rest from by
          rw [matchRev]; rw [if_neg hskip, if_neg hm]]
        rw [ih]
        rw [List.find?_cons_of_neg _ (by
          rw [hskipf]
          cases hm2 : matchPattern p pathSegs isDir
          · simp
          · exact absurd hm2 hm)]

theorem matcherMatch_eq_specLastMatch (pats : List Pattern) (pathSegs : List (List Nat))
    (isDir : Bool) :
    matcherMatch pats pathSegs isDir = specLastMatchOutcome pats pathSegs isDir := by
  unfold matcherMatch specLastMatchOutcome
  exact matchRev_find pathSegs (pathSegs.getLastD []) isDir pats.reverse

/-! ### Monotonicity of `matchPattern` in the directory flag -/

theorem matchPattern_isDir_mono (p : Pattern) (pathSegs : List (List Nat))
    (h : matchPattern p pathSegs false = true) : matchPattern p pathSegs true = true := by
  unfold matchPattern at h ⊢
  cases hpg : prefixGate p.prfx pathSegs with
  | none => rw [hpg] at h; dsimp only at h; cases h
  | some segs =>
    rw [hpg] at h
    dsimp only at h ⊢
    by_cases hdo : p.dirOnly = true
    · rw [if_pos hdo] at h ⊢
      by_cases hex : matchSegments p.segments segs = true
      · rw [if_pos hex] at h; cases h
      · rw [if_neg hex] at h ⊢
        exact h
    · rw [if_neg hdo] at h ⊢
      exact h


/-! ### Invariants of compiled segment lists -/

/-- No two consecutive segments are both double stars. -/
def noAdjStars : List Seg → Bool
  | [] => true
  | [_] => true
  | a :: b :: rest => !(a.doubleStar && b.doubleStar) && noAdjStars (b :: rest)

theorem noAdjStars_cons_cons (a b : Seg) (rest : List Seg) :
    noAdjStars (a :: b :: rest) = (!(a.doubleStar && b.doubleStar) && noAdjStars (b :: rest)) :=
  rfl

theorem lastIsStar_cons_cons (a b : Seg) (rest : List Seg) :
    lastIsStar (a :: b :: rest) = lastIsStar (b :: rest) := by
  unfold lastIsStar
  rw [List.getLast?_cons_cons]

theorem collapseGo_noAdj : ∀ (rest : List Seg) (prev : Seg),
    noAdjStars (prev :: collapseGo prev rest) = true := by
  intro rest
  induction rest with
  | nil => intro prev; rfl
  | cons s t ih =>
    intro prev
    by_cases h : s.doubleStar ∧ prev.doubleStar
    · rw [show collapseGo prev (s :: t) = collapseGo prev t from by
        rw [collapseGo]; rw [if_pos h]]
      exact ih prev
    · rw [show collapseGo prev (s :: t) = s :: collapseGo s t from by
        rw [collapseGo]; rw [if_neg h]]
      rw [noAdjStars_cons_cons, Bool.and_eq_true]
      refine ⟨?_, ih s⟩
      cases hp : prev.doubleStar <;> cases hs : s.doubleStar <;> simp_all

theorem collapseStars_noAdj : ∀ l : List Seg, noAdjStars (collapseStars l) = true := by
  intro l
  cases l with
  | nil => rfl
  | cons s rest =>
    rw [show collapseStars (s :: rest) = s :: collapseGo s rest from rfl]
    exact collapseGo_noAdj rest s

theorem collapseStars_ne_nil (l : List Seg) (h : l ≠ []) : collapseStars l ≠ [] := by
  cases l with
  | nil => exact absurd rfl h
  | cons s rest =>
    rw [show collapseStars (s :: rest) = s :: collapseGo s rest from rfl]
    exact fun h2 => List.noConfusion h2

theorem buildSegs_ne_nil (anchored : Bool) (rawSegs : List (List Nat)) (h : rawSegs ≠ []) :
    buildSegs anchored rawSegs ≠ [] := by
  cases hb : anchored <;> simp [buildSegs, h]

theorem lastIsStar_append_star (l : List Seg) :
    lastIsStar (l ++ [Seg.mk true []]) = true := by
  unfold lastIsStar
  rw [List.getLast?_concat]

theorem noAdjStars_append_star : ∀ l : List Seg, noAdjStars l = true →
    lastIsStar l = false → noAdjStars (l ++ [Seg.mk true []]) = true := by
  intro l
  induction l with
  | nil => intro _ _; rfl
  | cons a rest ih =>
    intro h1 h2
    cases rest with
    | nil =>
      have ha : a.doubleStar = false := by
        unfold lastIsStar at h2
        rw [List.getLast?_singleton] at h2
        exact h2
      rw [show ([a] ++ [Seg.mk true []]) = [a, Seg.mk true []] from rfl,
        noAdjStars_cons_cons, ha]
      rfl
    | cons b rest2 =>
      rw [noAdjStars_cons_cons, Bool.and_eq_true] at h1
      have h2b : lastIsStar (b :: rest2) = false := by
        rw [← lastIsStar_cons_cons a]; exact h2
      rw [show (a :: b :: rest2) ++ [Seg.mk true []] = a :: b :: (rest2 ++ [Seg.mk true []])
        from rfl, noAdjStars_cons_cons, Bool.and_eq_true]
      exact ⟨h1.1, ih h1.2 h2b⟩

theorem addTrailingStar_ne_nil (dirOnly : Bool) (segs : List Seg) (h : segs ≠ []) :
    addTrailingStar dirOnly segs ≠ [] := by
  unfold addTrailingStar
  split
  · simp
  · exact h

theorem addTrailingStar_noAdj (dirOnly : Bool) (segs : List Seg)
    (h : noAdjStars segs = true) : noAdjStars (addTrailingStar dirOnly segs) = true := by
  unfold addTrailingStar
  split
  · next hc => exact noAdjStars_append_star segs h hc.2
  · exact h

theorem addTrailingStar_lastStar (dirOnly : Bool) (segs : List Seg) (h : dirOnly = false) :
    lastIsStar (addTrailingStar dirOnly segs) = true := by
  unfold addTrailingStar
  by_cases hl : lastIsStar segs = false
  · rw [if_pos ⟨by rw [h]; exact Bool.false_ne_true, hl⟩]
    exact lastIsStar_append_star segs
  · rw [if_neg (fun hc => hl hc.2)]
    cases hls : lastIsStar segs with
    | false => exact absurd hls hl
    | true => rfl

theorem splitOn_cons (sep c : Nat) (rest : List Nat) :
    splitOn sep (c :: rest) =
      (if c = sep then [] :: splitOn sep rest
      else
        match splitOn sep rest with
        | h :: t => (c :: h) :: t
        | [] => [[c]]) := rfl

theorem splitOn_ne_nil (sep : Nat) : ∀ l : List Nat, splitOn sep l ≠ [] := by
  intro l
  induction l with
  | nil => exact fun h => List.noConfusion h
  | cons c rest ih =>
    rw [splitOn_cons]
    by_cases h : c = sep
    · rw [if_pos h]; exact fun h2 => List.noConfusion h2
    · rw [if_neg h]
      cases hs : splitOn sep rest with
      | nil => exact fun h2 => List.noConfusion h2
      | cons a t => exact fun h2 => List.noConfusion h2


/-- C7: every pattern successfully returned by `compilePattern` has (I1) a
non-empty segment list, (I2) no two consecutive double-star segments, and
(I3), when it is not directory-only, a double-star as its last segment. -/
theorem c7_compiled_pattern_invariants (line0 dir : List Nat) (p : Pattern)
    (h : compilePattern line0 dir = (p, [])) :
    p.segments ≠ [] ∧ noAdjStars p.segments = true ∧
      (p.dirOnly = false → lastIsStar p.segments = true) := by
  unfold compilePattern at h
  dsimp only at h
  split at h
  · injection h with h1 h2
    exact absurd h2 (by decide)
  · split at h
    all_goals
      split at h
      · injection h with h1 h2
        exact absurd h2 (by decide)
      · split at h
        · injection h with h1 h2
          subst h1
          refine ⟨?_, ?_, ?_⟩
          · exact addTrailingStar_ne_nil _ _
              (collapseStars_ne_nil _ (buildSegs_ne_nil _ _ (splitOn_ne_nil _ _)))
          · exact addTrailingStar_noAdj _ _ (collapseStars_noAdj _)
          · intro hdo
            exact addTrailingStar_lastStar _ _ hdo
        · rename_i x hne
          injection h with h1 h2
          exact absurd h2 hne

theorem c7_compiled_pattern_invariants_witness :
    compilePattern (gs "foo/bar") [] = ((compilePattern (gs "foo/bar") []).1, []) ∧
      ((compilePattern (gs "foo/bar") []).1.segments ≠ [] ∧
        noAdjStars (compilePattern (gs "foo/bar") []).1.segments = true ∧
        ((compilePattern (gs "foo/bar") []).1.dirOnly = false →
          lastIsStar (compilePattern (gs "foo/bar") []).1.segments = true)) :=
  ⟨by decide, c7_compiled_pattern_invariants (gs "foo/bar") [] _ (by decide)⟩


/-! ### Shape of compiler error messages -/

/-- Modelled from the claim: the message reports an unknown POSIX class. -/
def unknownClassMsg (msg : List Nat) : Prop :=
  ∃ name, msg = gs "unknown POSIX class [:" ++ name ++ gs ":]"

theorem vbScan_succ (glob : List Nat) (fuel j : Nat) :
    vbScan glob (fuel + 1) j =
      (if j < glob.length ∧ ¬ glob.getD j 0 = bRBR then
        if glob.getD j 0 = bBSL ∧ j + 1 < glob.length then vbScan glob fuel (j + 2)
        else if glob.getD j 0 = bLBR ∧ j + 1 < glob.length ∧ glob.getD (j + 1) 0 = bCOLON then
          match findPosixClassEnd glob (j + 2) with
          | some e =>
            if validPosixClassName ((glob.drop (j + 2)).take (e - (j + 2))) then
              vbScan glob fuel (e + 2)
            else
              Sum.inl (gs "unknown POSIX class [:" ++ (glob.drop (j + 2)).take (e - (j + 2))
                ++ gs ":]")
          | none => vbScan glob fuel (j + 1)
        else vbScan glob fuel (j + 1)
      else Sum.inr j) := rfl

theorem vbScan_msg (glob : List Nat) :
    ∀ fuel j msg, vbScan glob fuel j = Sum.inl msg → unknownClassMsg msg := by
  intro fuel
  induction fuel with
  | zero => intro j msg h; exact Sum.noConfusion h
  | succ fuel ih =>
    intro j msg h
    rw [vbScan_succ] at h
    by_cases h1 : j < glob.length ∧ ¬ glob.getD j 0 = bRBR
    · rw [if_pos h1] at h
      by_cases h2 : glob.getD j 0 = bBSL ∧ j + 1 < glob.length
      · rw [if_pos h2] at h; exact ih _ _ h
      · rw [if_neg h2] at h
        by_cases h3 : glob.getD j 0 = bLBR ∧ j + 1 < glob.length ∧ glob.getD (j + 1) 0 = bCOLON
        · rw [if_pos h3] at h
          cases hE : findPosixClassEnd glob (j + 2) with
          | none => rw [hE] at h; dsimp only at h; exact ih _ _ h
          | some e =>
            rw [hE] at h; dsimp only at h
            by_cases h4 : validPosixClassName ((glob.drop (j + 2)).take (e - (j + 2))) = true
            · rw [if_pos h4] at h; exact ih _ _ h
            · rw [if_neg h4] at h
              injection h with h5
              exact ⟨_, h5.symm⟩
        · rw [if_neg h3] at h; exact ih _ _ h
    · rw [if_neg h1] at h; exact Sum.noConfusion h

theorem vbOuter_succ (glob : List Nat) (fuel i : Nat) :
    vbOuter glob (fuel + 1) i =
      (if i < glob.length then
        if glob.getD i 0 = bBSL ∧ i + 1 < glob.length then vbOuter glob fuel (i + 2)
        else if ¬ glob.getD i 0 = bLBR then vbOuter glob fuel (i + 1)
        else
          match vbScan glob (glob.length + 2) (vbStart glob i) with
          | Sum.inl msg => msg
          | Sum.inr j =>
            if glob.length ≤ j then vbOuter glob fuel (i + 1) else vbOuter glob fuel (j + 1)
      else []) := rfl

theorem vbOuter_msg (glob : List Nat) :
    ∀ fuel i msg, vbOuter glob fuel i = msg → msg ≠ [] → unknownClassMsg msg := by
  intro fuel
  induction fuel with
  | zero => intro i msg h hne; exact absurd h.symm hne
  | succ fuel ih =>
    intro i msg h hne
    rw [vbOuter_succ] at h
    by_cases h1 : i < glob.length
    · rw [if_pos h1] at h
      by_cases h2 : glob.getD i 0 = bBSL ∧ i + 1 < glob.length
      · rw [if_pos h2] at h; exact ih _ _ h hne
      · rw [if_neg h2] at h
        by_cases h3 : ¬ glob.getD i 0 = bLBR
        · rw [if_pos h3] at h; exact ih _ _ h hne
        · rw [if_neg h3] at h
          cases hE : vbScan glob (glob.length + 2) (vbStart glob i) with
          | inl m =>
            rw [hE] at h; dsimp only at h
            exact h ▸ vbScan_msg glob _ _ m hE
          | inr j =>
            rw [hE] at h; dsimp only at h
            by_cases h4 : glob.length ≤ j
            · rw [if_pos h4] at h; exact ih _ _ h hne
            · rw [if_neg h4] at h; exact ih _ _ h hne
    · rw [if_neg h1] at h; exact absurd h.symm hne

theorem validateBrackets_msg (glob msg : List Nat) (h : validateBrackets glob = msg)
    (hne : msg ≠ []) : unknownClassMsg msg :=
  vbOuter_msg glob (glob.length + 2) 0 msg h hne

theorem validateSegs_cons (s : Seg) (rest : List Seg) :
    validateSegs (s :: rest) =
      (if s.doubleStar then validateSegs rest
      else
        match validateBrackets s.raw with
        | [] => validateSegs rest
        | msg => msg) := rfl

theorem validateSegs_msg : ∀ (segs : List Seg) (msg : List Nat),
    validateSegs segs = msg → msg ≠ [] → unknownClassMsg msg := by
  intro segs
  induction segs with
  | nil => intro msg h hne; exact absurd h.symm hne
  | cons s rest ih =>
    intro msg h hne
    rw [validateSegs_cons] at h
    by_cases hds : s.doubleStar = true
    · rw [if_pos hds] at h; exact ih _ h hne
    · rw [if_neg hds] at h
      cases hv : validateBrackets s.raw with
      | nil => rw [hv] at h; dsimp only at h; exact ih _ h hne
      | cons a t =>
        rw [hv] at h; dsimp only at h
        exact h ▸ validateBrackets_msg s.raw (a :: t) hv (fun hc => List.noConfusion hc)

theorem compilePattern_msg (line0 dir : List Nat) (p : Pattern) (msg : List Nat)
    (h : compilePattern line0 dir = (p, msg)) :
    msg = [] ∨ msg = gs "empty pattern" ∨ unknownClassMsg msg := by
  unfold compilePattern at h
  dsimp only at h
  split at h
  · injection h with h1 h2
    exact Or.inr (Or.inl h2.symm)
  · split at h
    all_goals
      split at h
      · injection h with h1 h2
        exact Or.inr (Or.inl h2.symm)
      · split at h
        · injection h with h1 h2
          exact Or.inl h2.symm
        · rename_i x hne
          injection h with h1 h2
          exact Or.inr (Or.inr (h2 ▸ validateSegs_msg _ _ rfl hne))

theorem addPatternsGo_cons (dir source l : List Nat) (rest : List (List Nat)) (n : Nat) :
    addPatternsGo dir source (l :: rest) n =
      (if trimTrailingSpaces l = [] ∨ (trimTrailingSpaces l).head? = some bHASH then
        addPatternsGo dir source rest (n + 1)
      else
        match compilePattern (trimTrailingSpaces l) dir with
        | (p, []) =>
          ({ p with text := trimTrailingSpaces l, source := source, line := n + 1 } ::
            (addPatternsGo dir source rest (n + 1)).1, (addPatternsGo dir source rest (n + 1)).2)
        | (_, msg) =>
          ((addPatternsGo dir source rest (n + 1)).1,
            { pattern := trimTrailingSpaces l, source := source, line := n + 1,
              message := msg } :: (addPatternsGo dir source rest (n + 1)).2)) := rfl

theorem addPatternsGo_msg (dir source : List Nat) :
    ∀ (lines : List (List Nat)) (n : Nat) (e : PatternError),
      e ∈ (addPatternsGo dir source lines n).2 →
      e.message = gs "empty pattern" ∨ unknownClassMsg e.message := by
  intro lines
  induction lines with
  | nil => intro n e he; exact absurd he (List.not_mem_nil e)
  | cons l rest ih =>
    intro n e he
    rw [addPatternsGo_cons] at he
    by_cases h1 : trimTrailingSpaces l = [] ∨ (trimTrailingSpaces l).head? = some bHASH
    · rw [if_pos h1] at he; exact ih _ _ he
    · rw [if_neg h1] at he
      cases hc : compilePattern (trimTrailingSpaces l) dir with
      | mk q m =>
        rw [hc] at he
        cases m with
        | nil => dsimp only at he; exact ih _ _ he
        | cons b bs =>
          dsimp only at he
          rcases List.mem_cons.mp he with he1 | he2
          · rw [he1]
            rcases compilePattern_msg _ _ _ _ hc with hm | hm | hm
            · exact absurd hm (fun hx => List.noConfusion hx)
            · exact Or.inl hm
            · exact Or.inr hm
          · exact ih _ _ he2


/-- C6 (amended): every PatternError recorded by pattern ingestion carries
either the message "empty pattern" (for a line reducing to nothing or to a
lone slash) or a message of the form "unknown POSIX class [:name:]".  The
original claim, which allows only the unknown-POSIX-class form, is refuted
separately on the line "/". -/
theorem c6_error_messages (data dir source : List Nat) (e : PatternError)
    (he : e ∈ (addPatterns data dir source).2) :
    e.message = gs "empty pattern" ∨ unknownClassMsg e.message :=
  addPatternsGo_msg dir source (scanLines data) 0 e he

theorem c6_error_messages_witness :
    (⟨gs "/", [], 1, gs "empty pattern"⟩ : PatternError) ∈ (addPatterns (gs "/") [] []).2 ∧
      ((⟨gs "/", [], 1, gs "empty pattern"⟩ : PatternError).message = gs "empty pattern" ∨
        unknownClassMsg (⟨gs "/", [], 1, gs "empty pattern"⟩ : PatternError).message) :=
  ⟨by decide, c6_error_messages (gs "/") [] [] _ (by decide)⟩

/-- C6 counterexample: the line "/" does produce a PatternError entry, and
its message "empty pattern" is not of the unknown-POSIX-class form. -/
theorem c6_counterexample :
    (addPatterns (gs "/") [] []).2 = [⟨gs "/", [], 1, gs "empty pattern"⟩] ∧
      ¬ unknownClassMsg (gs "empty pattern") := by
  constructor
  · decide
  · rintro ⟨name, hname⟩
    have h1 : (gs "empty pattern").headD 0 =
        (gs "unknown POSIX class [:" ++ name ++ gs ":]").headD 0 := by rw [hname]
    rw [show (gs "empty pattern").headD 0 = 101 from rfl] at h1
    rw [show (gs "unknown POSIX class [:" ++ name ++ gs ":]").headD 0 = 117 from rfl] at h1
    exact absurd h1 (by decide)

/-! ### Trailing-space trimming -/

/-- Modelled from the claim: position k stops the right-to-left scan of
trailing spaces: the start of the line, a non-space byte right before k, or
a space escaped by a backslash. -/
def boundaryStop (s : List Nat) (k : Nat) : Prop :=
  k = 0 ∨ ¬ s.getD (k - 1) 0 = bSP ∨ (2 ≤ k ∧ s.getD (k - 2) 0 = bBSL)

theorem ttsIdx_succ (s : List Nat) (i : Nat) :
    ttsIdx s (i + 1) =
      (if s.getD i 0 = bSP then
        (if 1 ≤ i ∧ s.getD (i - 1) 0 = bBSL then i + 1 else ttsIdx s i)
      else i + 1) := rfl

theorem ttsIdx_spec (s : List Nat) : ∀ i,
    (∀ j, i ≤ j → j < s.length → s.getD j 0 = bSP) →
    ttsIdx s i ≤ i ∧
      (∀ j, ttsIdx s i ≤ j → j < s.length → s.getD j 0 = bSP) ∧
      boundaryStop s (ttsIdx s i) ∧
      (∀ k, ttsIdx s i < k → k ≤ i → ¬ boundaryStop s k) := by
  intro i
  induction i with
  | zero =>
    intro hsp
    exact ⟨Nat.le_refl 0, hsp, Or.inl rfl, fun k hk1 hk2 _ => by omega⟩
  | succ i ih =>
    intro hsp
    by_cases h1 : s.getD i 0 = bSP
    · by_cases h2 : 1 ≤ i ∧ s.getD (i - 1) 0 = bBSL
      · have he : ttsIdx s (i + 1) = i + 1 := by
          rw [ttsIdx_succ, if_pos h1, if_pos h2]
        refine ⟨by omega, ?_, ?_, ?_⟩
        · rw [he]; exact fun j hj1 hj2 => hsp j hj1 hj2
        · rw [he]
          refine Or.inr (Or.inr ⟨by omega, ?_⟩)
          have hx : i + 1 - 2 = i - 1 := by omega
          rw [hx]; exact h2.2
        · rw [he]; intro k hk1 hk2 _; omega
      · have he : ttsIdx s (i + 1) = ttsIdx s i := by
          rw [ttsIdx_succ, if_pos h1, if_neg h2]
        have hsp2 : ∀ j, i ≤ j → j < s.length → s.getD j 0 = bSP := by
          intro j hj1 hj2
          rcases Nat.eq_or_lt_of_le hj1 with he2 | hlt
          · rw [← he2]; exact h1
          · exact hsp j hlt hj2
        obtain ⟨ha, hb, hc, hd⟩ := ih hsp2
        rw [he]
        refine ⟨by omega, hb, hc, ?_⟩
        intro k hk1 hk2
        rcases Nat.eq_or_lt_of_le hk2 with he2 | hlt
        · subst he2
          rintro (h0 | hns | hesc)
          · omega
          · refine hns ?_
            have hx : i + 1 - 1 = i := by omega
            rw [hx]; exact h1
          · refine h2 ⟨by omega, ?_⟩
            have hx : i + 1 - 2 = i - 1 := by omega
            rw [← hx]; exact hesc.2
        · exact hd k hk1 (by omega)
    · have he : ttsIdx s (i + 1) = i + 1 := by
        rw [ttsIdx_succ, if_neg h1]
      refine ⟨by omega, ?_, ?_, ?_⟩
      · rw [he]; exact fun j hj1 hj2 => hsp j hj1 hj2
      · rw [he]
        refine Or.inr (Or.inl ?_)
        have hx : i + 1 - 1 = i := by omega
        rw [hx]; exact h1
      · rw [he]; intro k hk1 hk2 _; omega

/-- C8: trimming keeps a prefix of the line and drops only bytes from it:
there is a cut position i which is a scan boundary (start of line, non-space
before it, or a backslash-escaped space kept in the output), every dropped
byte is a SPACE (in particular tabs are never stripped and all other bytes
are left unchanged), and i is the largest boundary, i.e. the scan stopped at
the first boundary encountered right-to-left. -/
theorem c8_trim_trailing_spaces (s : List Nat) :
    ∃ i, i ≤ s.length ∧ trimTrailingSpaces s = s.take i ∧
      (∀ j, i ≤ j → j < s.length → s.getD j 0 = bSP) ∧
      boundaryStop s i ∧
      (∀ k, i < k → k ≤ s.length → ¬ boundaryStop s k) := by
  obtain ⟨ha, hb, hc, hd⟩ := ttsIdx_spec s s.length
    (fun j hj1 hj2 => absurd (Nat.lt_of_le_of_lt hj1 hj2) (Nat.lt_irrefl s.length))
  exact ⟨ttsIdx s s.length, ha, rfl, hb, hc, hd⟩

/-- C9 (amended): the canonical error string is
"source:line: invalid pattern: text: message" when the source is non-empty,
and "invalid pattern: text: message" — with the line part omitted as well —
when the source is empty. -/
theorem c9_error_string_form (e : PatternError) :
    patternErrorString e =
      (if e.source = [] then gs "invalid pattern: " ++ e.pattern ++ gs ": " ++ e.message
      else e.source ++ gs ":" ++ itoa e.line ++ gs ": invalid pattern: " ++ e.pattern
        ++ gs ": " ++ e.message) := by
  unfold patternErrorString
  by_cases h : e.source = []
  · rw [if_neg (fun hc => hc h), if_pos h]
  · rw [if_pos h, if_neg h]
    rfl

/-- C9 counterexample: for an empty source the line number is omitted
entirely; the claim would require it to still appear. -/
theorem c9_counterexample :
    patternErrorString ⟨gs "p", [], 3, gs "m"⟩ = gs "invalid pattern: p: m" ∧
      ¬ patternErrorString ⟨gs "p", [], 3, gs "m"⟩ = gs "3: invalid pattern: p: m" := by
  decide


/-- C1 (amended): the matcher implements last-match-wins over the patterns
that pass the literal-suffix fast reject: the outcome of a query equals the
complement of the negate flag of the last-appended pattern that both passes
the fast reject and structurally matches the path (false when none does).
Pure last-structural-match-wins, as originally claimed, is refuted
separately. -/
theorem c1_last_match_wins (pats : List Pattern) (pathSegs : List (List Nat)) (isDir : Bool) :
    matcherMatch pats pathSegs isDir = specLastMatchOutcome pats pathSegs isDir :=
  matcherMatch_eq_specLastMatch pats pathSegs isDir

/-- C1 counterexample: for the pattern list "app.log" then "!*.log" and the
file path app.log/sub, both patterns structurally match (negate flags false
then true), so last-structural-match-wins dictates outcome false, yet the
matcher returns true: the literal-suffix fast reject skips the negated
pattern because "sub" does not end in ".log". -/
theorem c1_counterexample :
    (((addPatterns (gs "app.log\n!*.log\n") [] []).1.filter
        (fun p => matchPattern p [gs "app.log", gs "sub"] false)).map
        (fun p => p.negate)) = [false, true] ∧
    specLastStructuralOutcome (addPatterns (gs "app.log\n!*.log\n") [] []).1
      [gs "app.log", gs "sub"] false = false ∧
    matcherMatch (addPatterns (gs "app.log\n!*.log\n") [] []).1
      [gs "app.log", gs "sub"] false = true := by
  decide

/-- C2: the segment-level backtracking matcher agrees with the declarative
semantics in which a double-star segment consumes zero or more consecutive
path segments and a literal segment consumes exactly one path segment
accepted by the character-level matcher. -/
theorem c2_segment_matcher_correct (patSegs : List Seg) (pathSegs : List (List Nat)) :
    matchSegments patSegs pathSegs = declSegs patSegs pathSegs :=
  matchSegments_eq_declSegs patSegs pathSegs

/-- C3: the character-level backtracking matcher agrees with the declarative
semantics of its token list: a star consumes zero or more bytes, and each
single-byte token (literal, escaped literal, question mark, bracket
expression, or literal bracket from an unterminated expression) consumes
exactly one byte it accepts. -/
theorem c3_character_matcher_correct (glob text : List Nat) :
    matchSegment glob text = declSegment glob text :=
  matchSegment_eq_declSegment glob text

/-- C4: the literal-suffix fast reject is unsound: the pattern "*.log" has
literal suffix ".log"; the path app.log/sub has last segment "sub", which
does not end in ".log", so the fast reject skips the pattern, yet the
structural match succeeds (app.log matches the glob and the implicit
trailing double star covers sub), so the skip changes the outcome of the
matcher from true to false. -/
theorem c4_literal_suffix_reject_unsound :
    (compilePattern (gs "*.log") []).1.literalSuffix = gs ".log" ∧
    suffixSkip (compilePattern (gs "*.log") []).1 (gs "sub") = true ∧
    matchPattern (compilePattern (gs "*.log") []).1 [gs "app.log", gs "sub"] false = true ∧
    matcherMatch [(compilePattern (gs "*.log") []).1] [gs "app.log", gs "sub"] false = false := by
  decide

/-- C5 (amended): directory-only containment holds for a single-pattern
matcher: if a successfully compiled pattern is directory-only and the
matcher ignores a non-empty path queried as a file, then some non-empty
whole-segment prefix of the path (the path itself) is ignored when queried
as a directory.  For matchers with several patterns the property is refuted
separately. -/
theorem c5_directory_containment (line0 dir : List Nat) (w : Pattern)
    (hc : compilePattern line0 dir = (w, []))
    (hdir : w.dirOnly = true)
    (segs : List (List Nat)) (hne : segs ≠ [])
    (hm : matcherMatch [w] segs false = true) :
    ∃ k, 1 ≤ k ∧ k ≤ segs.length ∧ matcherMatch [w] (segs.take k) true = true := by
  refine ⟨segs.length, ?_, Nat.le_refl _, ?_⟩
  · cases segs with
    | nil => exact absurd rfl hne
    | cons a t => simp
  · rw [List.take_length]
    rw [matcherMatch_eq_specLastMatch] at hm ⊢
    unfold specLastMatchOutcome at hm ⊢
    cases hf : ([w] : List Pattern).reverse.find?
        (fun p => !suffixSkip p (segs.getLastD []) && matchPattern p segs false) with
    | none => rw [hf] at hm; dsimp only at hm; cases hm
    | some q =>
      rw [hf] at hm; dsimp only at hm
      have hq := List.find?_some hf
      have hmem := List.mem_of_find?_eq_some hf
      have hqw : q = w := by
        rw [show ([w] : List Pattern).reverse = [w] from rfl] at hmem
        exact List.mem_singleton.mp hmem
      rw [hqw] at hq hm
      rw [Bool.and_eq_true] at hq
      have hpred1 : (!suffixSkip w (segs.getLastD []) && matchPattern w segs true) = true := by
        rw [Bool.and_eq_true]
        exact ⟨hq.1, matchPattern_isDir_mono w segs hq.2⟩
      have hfind : List.find?
          (fun p => !suffixSkip p (segs.getLastD []) && matchPattern p segs true) [w] =
          some w :=
        List.find?_cons_of_pos [] (by exact hpred1)
      rw [show ([w] : List Pattern).reverse = [w] from rfl, hfind]
      exact hm

theorem c5_directory_containment_witness :
    compilePattern (gs "foo/") [] = ((compilePattern (gs "foo/") []).1, []) ∧
    (compilePattern (gs "foo/") []).1.dirOnly = true ∧
    ([gs "foo", gs "bar"] : List (List Nat)) ≠ [] ∧
    matcherMatch [(compilePattern (gs "foo/") []).1] [gs "foo", gs "bar"] false = true ∧
    (∃ k, 1 ≤ k ∧ k ≤ ([gs "foo", gs "bar"] : List (List Nat)).length ∧
      matcherMatch [(compilePattern (gs "foo/") []).1]
        (([gs "foo", gs "bar"] : List (List Nat)).take k) true = true) :=
  ⟨by decide, by decide, by decide, by decide,
    c5_directory_containment (gs "foo/") [] _ (by decide) (by decide) _ (by decide) (by decide)⟩

/-- C5 counterexample: with the patterns "foo/" then "!**/", the file path
foo/bar is ignored and the deciding pattern "foo/" is directory-only, yet
neither whole-segment prefix of the path (foo, or foo/bar itself) is
ignored when queried as a directory: the negated any-directory pattern wins
every directory query. -/
theorem c5_counterexample :
    ((addPatterns (gs "foo/\n!**/\n") [] []).1.getD 0 emptyPattern).dirOnly = true ∧
    matcherMatch (addPatterns (gs "foo/\n!**/\n") [] []).1 [gs "foo", gs "bar"] false = true ∧
    matcherMatch (addPatterns (gs "foo/\n!**/\n") [] []).1 [gs "foo"] true = false ∧
    matcherMatch (addPatterns (gs "foo/\n!**/\n") [] []).1 [gs "foo", gs "bar"] true = false := by
  decide

/-- C10: the two-pointer backtracking loops terminate on every input: under
the mixed-radix fuel bound the segment-level loop and the character-level
loop always return a definite answer (the fuel is never exhausted), so the
top-level matchers are total. -/
theorem c10_matcher_termination :
    (∀ (patSegs : List Seg) (pathSegs : List (List Nat)),
      (msLoop patSegs pathSegs 0 0 none (msFuel patSegs pathSegs)).isSome = true) ∧
    (∀ glob text : List Nat,
      (csLoop glob text 0 0 none (csFuel glob text)).isSome = true) :=
  ⟨msLoop_isSome, csLoop_isSome⟩

end Gitignore
